import Mathlib

/-!
# Formal model of the Presale / Distribution fundraising ledgers

This file gives a shallow embedding, in Lean 4, of the two Anchor/Solana
programs of the repository:

* `src/instructions.rs` — the Presale ledger (`mod presale`), with its state
  type from `src/state.rs` (`Presale`) and errors from `src/error.rs`;
* `src/ClaimContract.rs` — the Distribution ledger (`mod secure_distribution`),
  with its state type `DistributionState` and `Contributor` records.

Modelling conventions:

* `Pubkey` is modelled as `Nat` (with `0` playing the role of
  `Pubkey::default()`).
* Rust `u64` values are modelled as `Nat`; `checked_add` / `checked_sub` /
  `checked_mul` are modelled as `Option Nat` returning `none` exactly when the
  Rust call returns `None` (result not representable in 64 bits); the
  *unchecked* `u64` arithmetic in `batch_set_contributions` is modelled as
  wrapping arithmetic, with an explicit `% 2^64`.
* `BTreeMap` fields are modelled as association lists with unique keys;
  `insertKey` replaces the binding of an existing key in place.
* Each instruction body is embedded as a function from the input state (plus
  the instruction arguments) to a pair `(state, Option error)`: the state as
  the function body leaves it in memory, together with `none` on `Ok(())` and
  `some e` when the body returns early with error `e`.  In particular an error
  raised in the middle of a loop leaves the mutations of earlier iterations
  visible in the returned state, exactly as the `&mut`-state Rust body does.
* The external SPL `token::transfer` CPI is an out-of-scope collaborator; its
  outcome is passed in as a `Bool` parameter (`true` = transfer succeeded).
  Account-level balances are likewise passed in where the code reads them
  (`total_tokens`, `usdt_balance`).
* Rust string normalization `trim().to_lowercase()` is modelled over the
  character list of the string (ASCII whitespace trimming and
  `Char.toLower`), which agrees with Rust on the ASCII tier names in scope;
  `String::len` (a byte count) is modelled by `String.utf8ByteSize`.
-/

namespace Sale

/-- Participant / account identifier, modelling `Pubkey`; `0` models
`Pubkey::default()`. -/
abbrev Pubkey := Nat

/-- `2^64`, the modulus of Rust `u64` arithmetic. -/
def U64LIM : Nat := 18446744073709551616

/-- Model of `u64::checked_add`. -/
def checkedAdd (a b : Nat) : Option Nat :=
  if a + b < U64LIM then some (a + b) else none

/-- Model of `u64::checked_sub`. -/
def checkedSub (a b : Nat) : Option Nat :=
  if b ≤ a then some (a - b) else none

/-- Model of `u64::checked_mul`. -/
def checkedMul (a b : Nat) : Option Nat :=
  if a * b < U64LIM then some (a * b) else none

/-- Wrapping `u64` addition (the unchecked `+` of the Rust source). -/
def add64 (a b : Nat) : Nat := (a + b) % U64LIM

/-- Wrapping `u64` subtraction (the unchecked `-` of the Rust source). -/
def sub64 (a b : Nat) : Nat := (a + U64LIM - b % U64LIM) % U64LIM

/-! ## Association-list maps (model of `BTreeMap`) -/

/-- Binding of key `k` in the map, if any (model of `BTreeMap::get`). -/
def lookupKey {κ ν : Type} [DecidableEq κ] : List (κ × ν) → κ → Option ν
  | [], _ => none
  | (k', v) :: rest, k => if k' = k then some v else lookupKey rest k

/-- Model of `BTreeMap::contains_key`. -/
def containsKey {κ ν : Type} [DecidableEq κ] (m : List (κ × ν)) (k : κ) : Bool :=
  (lookupKey m k).isSome

/-- Model of `BTreeMap::insert`: replaces the binding of an existing key in
place, otherwise appends a new binding. -/
def insertKey {κ ν : Type} [DecidableEq κ] : List (κ × ν) → κ → ν → List (κ × ν)
  | [], k, v => [(k, v)]
  | (k', v') :: rest, k, v =>
    if k' = k then (k, v) :: rest else (k', v') :: insertKey rest k v

/-- Model of `BTreeMap::remove` (maps have unique keys, so removing the first
binding removes the key). -/
def eraseKey {κ ν : Type} [DecidableEq κ] : List (κ × ν) → κ → List (κ × ν)
  | [], _ => []
  | (k', v') :: rest, k => if k' = k then rest else (k', v') :: eraseKey rest k

/-- Sum of the values of a `Nat`-valued map. -/
def sumMap {κ : Type} : List (κ × Nat) → Nat
  | [] => 0
  | (_, v) :: rest => v + sumMap rest

/-! ## String normalization (model of `trim().to_lowercase()`) -/

/-- ASCII whitespace, the fragment of Rust `char::is_whitespace` relevant to
the tier names in scope. -/
def wsChar (c : Char) : Bool :=
  c == ' ' || c == '\t' || c == '\n' || c == '\r'

/-- Trim ASCII whitespace from both ends of a character list
(model of `str::trim`). -/
def trimChars (l : List Char) : List Char :=
  ((l.dropWhile wsChar).reverse.dropWhile wsChar).reverse

/-- Model of `tier_name.trim().to_lowercase()` from the Rust source. -/
def normalizeTier (s : String) : String :=
  String.mk ((trimChars s.data).map Char.toLower)

/-! ## Distribution ledger (`src/ClaimContract.rs`) -/

/-- `Contributor` record from `src/ClaimContract.rs`. -/
structure Contributor where
  user : Pubkey
  contribution : Nat
  allocation : Nat
  deriving DecidableEq

/-- `DistributionState` from `src/ClaimContract.rs`. -/
structure DistState where
  owner : Pubkey
  token_mint : Pubkey
  total_raised : Nat
  allocation_calculated : Bool
  claim_enabled : Bool
  max_batch_size : Nat
  claim_period_open : Bool
  paused : Bool
  contributors : List Contributor
  deriving DecidableEq

/-- The `Default::default()` state of a freshly created
`DistributionState` account. -/
def distDefault : DistState :=
  { owner := 0, token_mint := 0, total_raised := 0,
    allocation_calculated := false, claim_enabled := false,
    max_batch_size := 0, claim_period_open := false, paused := false,
    contributors := [] }

/-- Error codes of `DistributionError` (plus `TransferFailed`, standing for an
error propagated from the external `token::transfer` collaborator). -/
inductive DistError where
  | NotOwner | ContractPaused | ClaimPeriodActive | AllocationAlreadyCalculated
  | InvalidTokenMint | InvalidBatchSize | ArrayLengthMismatch | BatchTooLarge
  | DuplicateContributor | InvalidAmount | NoContributions | NoTokenBalance
  | Overflow | AllocationExceedsBalance | ClaimingNotEnabled | ClaimPeriodClosed
  | NotContributor | NothingToClaim | TransferFailed
  deriving DecidableEq

/-- Model of `Vec::iter().find(|c| c.user == *user)`: the first record for
user `u`, if any. -/
def findContributor : List Contributor → Pubkey → Option Contributor
  | [], _ => none
  | c :: rest, u => if c.user = u then some c else findContributor rest u

/-- Replace the `contribution` of the first record for user `u`
(model of writing through the `iter_mut().find` reference). -/
def updateContribution : List Contributor → Pubkey → Nat → List Contributor
  | [], _, _ => []
  | c :: rest, u, a =>
    if c.user = u then { c with contribution := a } :: rest
    else c :: updateContribution rest u a

/-- Zero the `allocation` of the first record for user `u`
(model of `contributor.allocation = 0` in `claim`). -/
def zeroAllocation : List Contributor → Pubkey → List Contributor
  | [], _ => []
  | c :: rest, u =>
    if c.user = u then { c with allocation := 0 } :: rest
    else c :: zeroAllocation rest u

/-- `initialize_distribution` from `src/ClaimContract.rs`. -/
def init_distribution (d : DistState) (owner : Pubkey) (max_batch_size : Nat) :
    DistState × Option DistError :=
  if max_batch_size = 0 then (d, some .InvalidBatchSize)
  else
    ({ owner := owner, token_mint := 0, total_raised := 0,
       allocation_calculated := false, claim_enabled := false,
       max_batch_size := max_batch_size, claim_period_open := false,
       paused := false, contributors := [] }, none)

/-- `set_token` from `src/ClaimContract.rs`. -/
def set_token (d : DistState) (authority : Pubkey) (token_mint : Pubkey) :
    DistState × Option DistError :=
  if d.owner ≠ authority then (d, some .NotOwner)
  else if d.paused then (d, some .ContractPaused)
  else if d.claim_period_open then (d, some .ClaimPeriodActive)
  else if d.allocation_calculated then (d, some .AllocationAlreadyCalculated)
  else if token_mint = 0 then (d, some .InvalidTokenMint)
  else ({ d with token_mint := token_mint }, none)

/-- The per-element loop of `batch_set_contributions`: carries the
contributor list and (wrapping) `total_raised` through the iterations,
together with the `seen_users` set; an error return carries the mutations of
the earlier iterations, exactly as the Rust `&mut` loop does. -/
def bscLoop (contributors : List Contributor) (total : Nat) (seen : List Pubkey) :
    List (Pubkey × Nat) → List Contributor × Nat × Option DistError
  | [] => (contributors, total, none)
  | (user, amount) :: rest =>
    if seen.contains user then (contributors, total, some .DuplicateContributor)
    else if amount = 0 then (contributors, total, some .InvalidAmount)
    else
      match findContributor contributors user with
      | some c =>
        bscLoop (updateContribution contributors user amount)
          (add64 (sub64 total c.contribution) amount) (user :: seen) rest
      | none =>
        bscLoop (contributors ++ [{ user := user, contribution := amount, allocation := 0 }])
          (add64 total amount) (user :: seen) rest

/-- `batch_set_contributions` from `src/ClaimContract.rs`. -/
def batch_set_contributions (d : DistState) (authority : Pubkey)
    (users : List Pubkey) (amounts : List Nat) : DistState × Option DistError :=
  if d.owner ≠ authority then (d, some .NotOwner)
  else if d.paused then (d, some .ContractPaused)
  else if d.allocation_calculated then (d, some .AllocationAlreadyCalculated)
  else if users.length ≠ amounts.length then (d, some .ArrayLengthMismatch)
  else if users.length > d.max_batch_size then (d, some .BatchTooLarge)
  else
    match bscLoop d.contributors d.total_raised [] (users.zip amounts) with
    | (cs, t, e) => ({ d with contributors := cs, total_raised := t }, e)

/-- The per-contributor loop of `calculate_allocations`: `64`-bit checked
multiply of `contribution * total_tokens`, floor division by `total_raised`,
and a checked accumulation of the running `allocated_amount`.  On an error the
already-updated prefix of the contributor list is returned, as in the Rust
`iter_mut` loop (the current record's allocation is written before the
checked accumulation, as in the source). -/
def calcLoop (total_tokens total_raised : Nat) (allocated : Nat) :
    List Contributor → List Contributor × Nat × Option DistError
  | [] => ([], allocated, none)
  | c :: rest =>
    if 0 < c.contribution then
      match checkedMul c.contribution total_tokens with
      | none => (c :: rest, allocated, some .Overflow)
      | some prod =>
        let allocation := prod / total_raised
        match checkedAdd allocated allocation with
        | none => ({ c with allocation := allocation } :: rest, allocated, some .Overflow)
        | some allocated' =>
          match calcLoop total_tokens total_raised allocated' rest with
          | (rest', a, e) => ({ c with allocation := allocation } :: rest', a, e)
    else
      match calcLoop total_tokens total_raised allocated rest with
      | (rest', a, e) => (c :: rest', a, e)

/-- `calculate_allocations` from `src/ClaimContract.rs`; `total_tokens` is the
balance read from the token account. -/
def calculate_allocations (d : DistState) (authority : Pubkey)
    (total_tokens : Nat) : DistState × Option DistError :=
  if d.owner ≠ authority then (d, some .NotOwner)
  else if d.paused then (d, some .ContractPaused)
  else if d.token_mint = 0 then (d, some .InvalidTokenMint)
  else if d.total_raised = 0 then (d, some .NoContributions)
  else if d.allocation_calculated then (d, some .AllocationAlreadyCalculated)
  else if total_tokens = 0 then (d, some .NoTokenBalance)
  else
    match calcLoop total_tokens d.total_raised 0 d.contributors with
    | (cs, _, some e) => ({ d with contributors := cs }, some e)
    | (cs, allocated, none) =>
      if total_tokens < allocated then
        ({ d with contributors := cs }, some .AllocationExceedsBalance)
      else
        ({ d with contributors := cs, allocation_calculated := true }, none)

/-- `claim` from `src/ClaimContract.rs`; `transferOk` is the outcome of the
external `token::transfer`.  The stored allocation is zeroed before the
transfer is invoked, so the zeroed state is returned in the transfer-failure
case as well. -/
def claim (d : DistState) (authority : Pubkey) (transferOk : Bool) :
    DistState × Option DistError :=
  if d.paused then (d, some .ContractPaused)
  else if ¬ d.claim_enabled then (d, some .ClaimingNotEnabled)
  else if ¬ d.claim_period_open then (d, some .ClaimPeriodClosed)
  else
    match findContributor d.contributors authority with
    | none => (d, some .NotContributor)
    | some c =>
      if c.allocation = 0 then (d, some .NothingToClaim)
      else
        let d' := { d with contributors := zeroAllocation d.contributors authority }
        if transferOk then (d', none) else (d', some .TransferFailed)

/-! ## Presale ledger (`src/instructions.rs`, state from `src/state.rs`) -/

/-- `MAX_TIERS` from `src/mod.rs`. -/
def MAX_TIERS : Nat := 10
/-- `MAX_USERS` from `src/mod.rs`. -/
def MAX_USERS : Nat := 1000
/-- `MAX_TIER_NAME_LENGTH` from `src/mod.rs`. -/
def MAX_TIER_NAME_LENGTH : Nat := 32
/-- `MAX_BULK_ASSIGN` from `src/mod.rs`. -/
def MAX_BULK_ASSIGN : Nat := 50

/-- The `Presale` account state from `src/state.rs`. -/
structure Presale where
  is_initialized : Bool
  owner : Pubkey
  usdt_mint : Pubkey
  min_contribution : Nat
  hard_cap : Nat
  total_contributions : Nat
  is_active : Bool
  is_closed : Bool
  refunds_allowed : Bool
  paused : Bool
  whitelist : List (Pubkey × String)
  tiers : List (String × Nat)
  contributions : List (Pubkey × Nat)
  refunded : List (Pubkey × Bool)
  contributors : List Pubkey
  tier_total_contributions : List (String × Nat)
  deriving DecidableEq

/-- The `Default::default()` state of a freshly created `Presale` account. -/
def presaleDefault : Presale :=
  { is_initialized := false, owner := 0, usdt_mint := 0, min_contribution := 0,
    hard_cap := 0, total_contributions := 0, is_active := false,
    is_closed := false, refunds_allowed := false, paused := false,
    whitelist := [], tiers := [], contributions := [], refunded := [],
    contributors := [], tier_total_contributions := [] }

/-- Error codes of `PresaleError` from `src/error.rs` (the source declares two
identically named `Overflow` variants; one constructor models both), plus
`TransferFailed` standing for an error propagated from the external
`token::transfer` collaborator. -/
inductive PresaleError where
  | PresaleNotActive | PresaleClosed | UserNotWhitelisted | TierDoesNotExist
  | ExceedsHardCap | BelowMinContribution | AboveMaxContribution
  | TierDataMismatch | TierAlreadyExists | InvalidTierName | MismatchUsersTiers
  | UserAlreadyWhitelisted | NoFundsToWithdraw | PresaleNotClosed
  | RefundsNotAllowed | NoContributionsToRefund | AlreadyRefunded
  | InvalidMinContribution | InvalidHardCap | PresaleAlreadyInitialized
  | ExceedsMaxTiers | ExceedsMaxUsers | ExceedsBulkAssignLimit | Overflow
  | ExceedsNewTierMaxContribution | InvalidUserUsdtAccount | TierNameTooLong
  | PresaleAlreadyPaused | PresaleNotPaused | PresalePaused
  | ContributionTooSmall | InvalidTierNameFormat | HardCapLessThanTotal
  | HardCapLessThanTierMax | InvalidMaxContribution | PresaleAlreadyClosed
  | TransferFailed
  deriving DecidableEq

/-- `validate_tier_name` from `src/error.rs`: every character ASCII
alphanumeric or an underscore. -/
def validTierNameFormat (name : String) : Bool :=
  name.data.all (fun c => c.isAlphanum || c == '_')

/-- Wrapping sum of a `u64` vector, modelling `iter().sum::<u64>()`. -/
def sum64 (l : List Nat) : Nat := l.foldl add64 0

/-- The tier-insertion loop at the end of `initialize`: runs after the scalar
fields were already written, so an error return carries those writes (and the
insertions of earlier iterations). -/
def initTiersLoop (p : Presale) : List (String × Nat) → Presale × Option PresaleError
  | [] => (p, none)
  | (tier_name, max_contribution) :: rest =>
    if MAX_TIER_NAME_LENGTH < tier_name.utf8ByteSize then (p, some .TierNameTooLong)
    else
      let normalized_tier := normalizeTier tier_name
      if containsKey p.tiers normalized_tier then (p, some .TierAlreadyExists)
      else if max_contribution = 0 then (p, some .InvalidMaxContribution)
      else initTiersLoop
        { p with tiers := insertKey p.tiers normalized_tier max_contribution } rest

/-- `initialize` from `src/instructions.rs`. -/
def init_presale (p : Presale) (owner usdt_mint : Pubkey)
    (tier_names : List String) (tier_max_contributions : List Nat)
    (min_contribution hard_cap : Nat) : Presale × Option PresaleError :=
  if p.is_initialized then (p, some .PresaleAlreadyInitialized)
  else if min_contribution = 0 then (p, some .InvalidMinContribution)
  else if hard_cap = 0 then (p, some .InvalidHardCap)
  else if MAX_TIERS < tier_names.length then (p, some .ExceedsMaxTiers)
  else if tier_names.length ≠ tier_max_contributions.length then
    (p, some .TierDataMismatch)
  else if hard_cap < sum64 tier_max_contributions then
    (p, some .HardCapLessThanTierMax)
  else
    initTiersLoop
      { p with owner := owner, usdt_mint := usdt_mint,
               min_contribution := min_contribution, hard_cap := hard_cap,
               total_contributions := 0, is_active := true, is_closed := false,
               refunds_allowed := false, paused := false, is_initialized := true }
      (tier_names.zip tier_max_contributions)

/-- `create_tier` from `src/instructions.rs`. -/
def create_tier (p : Presale) (tier_name : String) (max_contribution : Nat) :
    Presale × Option PresaleError :=
  if ¬ validTierNameFormat tier_name then (p, some .InvalidTierNameFormat)
  else if MAX_TIERS ≤ p.tiers.length then (p, some .ExceedsMaxTiers)
  else if MAX_TIER_NAME_LENGTH < tier_name.utf8ByteSize then (p, some .TierNameTooLong)
  else if max_contribution = 0 then (p, some .InvalidMaxContribution)
  else
    let normalized_tier := normalizeTier tier_name
    if containsKey p.tiers normalized_tier then (p, some .TierAlreadyExists)
    else ({ p with tiers := insertKey p.tiers normalized_tier max_contribution }, none)

/-- `assign_tier` from `src/instructions.rs`. -/
def assign_tier (p : Presale) (user : Pubkey) (tier_name : String) :
    Presale × Option PresaleError :=
  if MAX_TIER_NAME_LENGTH < tier_name.utf8ByteSize then (p, some .TierNameTooLong)
  else
    let normalized_tier := normalizeTier tier_name
    if ¬ containsKey p.tiers normalized_tier then (p, some .TierDoesNotExist)
    else if containsKey p.whitelist user then (p, some .UserAlreadyWhitelisted)
    else if MAX_USERS ≤ p.whitelist.length then (p, some .ExceedsMaxUsers)
    else ({ p with whitelist := insertKey p.whitelist user normalized_tier }, none)

/-- The validation pass of `bulk_assign_tiers`: checks every pair against the
*unmutated* state, returning the first error, if any. -/
def bulkValidate (p : Presale) : List (String × Pubkey) → Option PresaleError
  | [] => none
  | (tier_name, user) :: rest =>
    if MAX_TIER_NAME_LENGTH < tier_name.utf8ByteSize then some .TierNameTooLong
    else
      let normalized_tier := normalizeTier tier_name
      if ¬ containsKey p.tiers normalized_tier then some .TierDoesNotExist
      else if containsKey p.whitelist user then some .UserAlreadyWhitelisted
      else bulkValidate p rest

/-- The application pass of `bulk_assign_tiers`: inserts every
`(user, normalized tier)` pair into the whitelist. -/
def bulkApply (p : Presale) : List (Pubkey × String) → Presale
  | [] => p
  | (user, tier) :: rest =>
    bulkApply { p with whitelist := insertKey p.whitelist user (normalizeTier tier) } rest

/-- `bulk_assign_tiers` from `src/instructions.rs` (two passes: validate all,
then apply all). -/
def bulk_assign_tiers (p : Presale) (users : List Pubkey) (tiers : List String) :
    Presale × Option PresaleError :=
  if users.length ≠ tiers.length then (p, some .MismatchUsersTiers)
  else if MAX_BULK_ASSIGN < users.length then (p, some .ExceedsBulkAssignLimit)
  else if MAX_USERS < p.whitelist.length + users.length then (p, some .ExceedsMaxUsers)
  else
    match bulkValidate p (tiers.zip users) with
    | some e => (p, some e)
    | none => (bulkApply p (users.zip tiers), none)

/-- `remove_user_from_whitelist` from `src/instructions.rs`. -/
def remove_user_from_whitelist (p : Presale) (user : Pubkey) :
    Presale × Option PresaleError :=
  if ¬ containsKey p.whitelist user then (p, some .UserNotWhitelisted)
  else ({ p with whitelist := eraseKey p.whitelist user }, none)

/-- The tail of `update_user_tier` after the old tier's running total was
adjusted: `or_insert(0)` plus checked add on the new tier's running total,
then the whitelist reassignment. -/
def updateTierTail (p : Presale) (user : Pubkey) (normalized_tier : String)
    (user_contribution : Nat) : Presale × Option PresaleError :=
  let cur := (lookupKey p.tier_total_contributions normalized_tier).getD 0
  match checkedAdd cur user_contribution with
  | none => (p, some .Overflow)
  | some t =>
    let p1 := { p with tier_total_contributions :=
                  insertKey p.tier_total_contributions normalized_tier t }
    ({ p1 with whitelist := insertKey p1.whitelist user normalized_tier }, none)

/-- `update_user_tier` from `src/instructions.rs`.  When the checked add on
the new tier's total overflows, the checked subtraction on the old tier's
total has already been written, as in the Rust body. -/
def update_user_tier (p : Presale) (user : Pubkey) (new_tier : String) :
    Presale × Option PresaleError :=
  if MAX_TIER_NAME_LENGTH < new_tier.utf8ByteSize then (p, some .TierNameTooLong)
  else
    let normalized_tier := normalizeTier new_tier
    if ¬ containsKey p.tiers normalized_tier then (p, some .TierDoesNotExist)
    else if ¬ containsKey p.whitelist user then (p, some .UserNotWhitelisted)
    else
      match lookupKey p.whitelist user with
      | none => (p, some .UserNotWhitelisted)
      | some current_tier =>
        if current_tier = normalized_tier then (p, none)
        else
          let user_contribution := (lookupKey p.contributions user).getD 0
          match lookupKey p.tiers normalized_tier with
          | none => (p, some .TierDoesNotExist)
          | some _new_tier_max =>
            if _new_tier_max < user_contribution then
              (p, some .ExceedsNewTierMaxContribution)
            else if user_contribution = 0 then
              ({ p with whitelist := insertKey p.whitelist user normalized_tier }, none)
            else
              match lookupKey p.tier_total_contributions current_tier with
              | some old_total =>
                match checkedSub old_total user_contribution with
                | none => (p, some .Overflow)
                | some t =>
                  updateTierTail
                    { p with tier_total_contributions :=
                        insertKey p.tier_total_contributions current_tier t }
                    user normalized_tier user_contribution
              | none => updateTierTail p user normalized_tier user_contribution

/-- `contribute` from `src/instructions.rs`; `usdtOwnerOk` models the
`user_usdt.owner == user` account check and `transferOk` the outcome of the
external `token::transfer`.  A failed transfer happens after the bookkeeping
writes, which are therefore retained in the returned state. -/
def contribute (p : Presale) (user : Pubkey) (amount : Nat)
    (usdtOwnerOk transferOk : Bool) : Presale × Option PresaleError :=
  if p.paused then (p, some .PresalePaused)
  else if ¬ p.is_active then (p, some .PresaleNotActive)
  else if p.is_closed then (p, some .PresaleClosed)
  else
    match lookupKey p.whitelist user with
    | none => (p, some .UserNotWhitelisted)
    | some user_tier =>
      match lookupKey p.tiers user_tier with
      | none => (p, some .TierDoesNotExist)
      | some tier_max =>
        match checkedAdd p.total_contributions amount with
        | none => (p, some .Overflow)
        | some prospective_total =>
          if p.hard_cap < prospective_total then (p, some .ExceedsHardCap)
          else
            let previous_contribution := (lookupKey p.contributions user).getD 0
            match checkedAdd previous_contribution amount with
            | none => (p, some .Overflow)
            | some user_contribution =>
              if user_contribution < p.min_contribution then
                (p, some .BelowMinContribution)
              else if tier_max < user_contribution then
                (p, some .AboveMaxContribution)
              else if ¬ usdtOwnerOk then (p, some .InvalidUserUsdtAccount)
              else
                let p' :=
                  { p with
                    contributors :=
                      if previous_contribution = 0 then p.contributors ++ [user]
                      else p.contributors,
                    contributions := insertKey p.contributions user user_contribution,
                    total_contributions := prospective_total }
                if transferOk then (p', none) else (p', some .TransferFailed)

/-- `close_presale` from `src/instructions.rs`. -/
def close_presale (p : Presale) (refunds_allowed : Bool) :
    Presale × Option PresaleError :=
  if p.paused then (p, some .PresalePaused)
  else if ¬ p.is_active then (p, some .PresaleNotActive)
  else if p.is_closed then (p, some .PresaleAlreadyClosed)
  else
    ({ p with is_closed := true, is_active := false,
              refunds_allowed := refunds_allowed }, none)

/-- `withdraw_funds` from `src/instructions.rs`; `usdt_balance` is the
custodied balance read from the presale token account.  The instruction never
mutates the `Presale` state. -/
def withdraw_funds (p : Presale) (usdt_balance : Nat) (transferOk : Bool) :
    Presale × Option PresaleError :=
  if p.paused then (p, some .PresalePaused)
  else if ¬ p.is_closed then (p, some .PresaleNotClosed)
  else if usdt_balance = 0 then (p, some .NoFundsToWithdraw)
  else if transferOk then (p, none) else (p, some .TransferFailed)

/-- `refund` from `src/instructions.rs`.  The contribution is zeroed and the
refunded flag set before the transfer is invoked; `total_contributions` is
not adjusted. -/
def refund (p : Presale) (user : Pubkey) (transferOk : Bool) :
    Presale × Option PresaleError :=
  if p.paused then (p, some .PresalePaused)
  else if ¬ p.is_closed then (p, some .PresaleNotClosed)
  else if ¬ p.refunds_allowed then (p, some .RefundsNotAllowed)
  else
    let contribution := (lookupKey p.contributions user).getD 0
    if contribution = 0 then (p, some .NoContributionsToRefund)
    else if (lookupKey p.refunded user).getD false then (p, some .AlreadyRefunded)
    else
      let p' := { p with contributions := insertKey p.contributions user 0,
                         refunded := insertKey p.refunded user true }
      if transferOk then (p', none) else (p', some .TransferFailed)

/-- `set_min_contribution` from `src/instructions.rs`. -/
def set_min_contribution (p : Presale) (new_min : Nat) :
    Presale × Option PresaleError :=
  if new_min = 0 then (p, some .InvalidMinContribution)
  else ({ p with min_contribution := new_min }, none)

/-- `set_hard_cap` from `src/instructions.rs`. -/
def set_hard_cap (p : Presale) (new_hard_cap : Nat) :
    Presale × Option PresaleError :=
  if new_hard_cap = 0 then (p, some .InvalidHardCap)
  else if new_hard_cap < p.total_contributions then (p, some .HardCapLessThanTotal)
  else ({ p with hard_cap := new_hard_cap }, none)

/-- `pause_presale` from `src/instructions.rs`. -/
def pause_presale (p : Presale) : Presale × Option PresaleError :=
  if p.paused then (p, some .PresaleAlreadyPaused)
  else ({ p with paused := true }, none)

/-- `unpause_presale` from `src/instructions.rs`. -/
def unpause_presale (p : Presale) : Presale × Option PresaleError :=
  if ¬ p.paused then (p, some .PresaleNotPaused)
  else ({ p with paused := false }, none)

/-! ## Operation alphabets and reachability -/

/-- One invocation of a Presale instruction, with its arguments (including the
out-of-scope inputs: the custodied balance read by `withdraw_funds` and the
outcomes of the external token transfers). -/
inductive PresaleOp where
  | opInit (owner usdt_mint : Pubkey) (tier_names : List String)
      (tier_max_contributions : List Nat) (min_contribution hard_cap : Nat)
  | opCreateTier (tier_name : String) (max_contribution : Nat)
  | opAssignTier (user : Pubkey) (tier_name : String)
  | opBulkAssignTiers (users : List Pubkey) (tiers : List String)
  | opRemoveUser (user : Pubkey)
  | opUpdateUserTier (user : Pubkey) (new_tier : String)
  | opContribute (user : Pubkey) (amount : Nat) (usdtOwnerOk transferOk : Bool)
  | opClosePresale (refunds_allowed : Bool)
  | opWithdrawFunds (usdt_balance : Nat) (transferOk : Bool)
  | opRefund (user : Pubkey) (transferOk : Bool)
  | opSetMinContribution (new_min : Nat)
  | opSetHardCap (new_hard_cap : Nat)
  | opPausePresale
  | opUnpausePresale
  deriving DecidableEq

/-- Dispatch of a Presale instruction to its embedded body. -/
def stepPresale (p : Presale) : PresaleOp → Presale × Option PresaleError
  | .opInit owner usdt_mint tier_names tier_max_contributions min_c hard_cap =>
    init_presale p owner usdt_mint tier_names tier_max_contributions min_c hard_cap
  | .opCreateTier tier_name max_contribution => create_tier p tier_name max_contribution
  | .opAssignTier user tier_name => assign_tier p user tier_name
  | .opBulkAssignTiers users tiers => bulk_assign_tiers p users tiers
  | .opRemoveUser user => remove_user_from_whitelist p user
  | .opUpdateUserTier user new_tier => update_user_tier p user new_tier
  | .opContribute user amount oOk tOk => contribute p user amount oOk tOk
  | .opClosePresale refunds_allowed => close_presale p refunds_allowed
  | .opWithdrawFunds usdt_balance tOk => withdraw_funds p usdt_balance tOk
  | .opRefund user tOk => refund p user tOk
  | .opSetMinContribution new_min => set_min_contribution p new_min
  | .opSetHardCap new_hard_cap => set_hard_cap p new_hard_cap
  | .opPausePresale => pause_presale p
  | .opUnpausePresale => unpause_presale p

/-- Reachable Presale states: the default account state, closed under
successfully committed instructions (a failed instruction aborts the
transaction, so only `none`-result steps commit). -/
inductive PReach : Presale → Prop where
  | start : PReach presaleDefault
  | step {s : Presale} (op : PresaleOp) {s' : Presale} :
      PReach s → stepPresale s op = (s', none) → PReach s'

/-- One invocation of a Distribution instruction, with its arguments. -/
inductive DistOp where
  | opInitDist (owner : Pubkey) (max_batch_size : Nat)
  | opSetToken (authority : Pubkey) (token_mint : Pubkey)
  | opBatchSet (authority : Pubkey) (users : List Pubkey) (amounts : List Nat)
  | opCalc (authority : Pubkey) (total_tokens : Nat)
  | opClaim (authority : Pubkey) (transferOk : Bool)
  deriving DecidableEq

/-- Dispatch of a Distribution instruction to its embedded body. -/
def stepDist (d : DistState) : DistOp → DistState × Option DistError
  | .opInitDist owner max_batch_size => init_distribution d owner max_batch_size
  | .opSetToken authority token_mint => set_token d authority token_mint
  | .opBatchSet authority users amounts => batch_set_contributions d authority users amounts
  | .opCalc authority total_tokens => calculate_allocations d authority total_tokens
  | .opClaim authority tOk => claim d authority tOk

/-- Reachable Distribution states: the default account state, closed under
successfully committed instructions. -/
inductive DReach : DistState → Prop where
  | start : DReach distDefault
  | step {d : DistState} (op : DistOp) {d' : DistState} :
      DReach d → stepDist d op = (d', none) → DReach d'

/-! ## Derived predicates and measures used by the statements -/

/-- Sum of the recorded `contribution` fields of a contributor list. -/
def sumC : List Contributor → Nat
  | [] => 0
  | c :: rest => c.contribution + sumC rest

/-- Sum of the `allocation` fields of a contributor list. -/
def sumAlloc : List Contributor → Nat
  | [] => 0
  | c :: rest => c.allocation + sumAlloc rest

/-- A `(tier name, user)` pair is invalid for `bulk_assign_tiers` on state `p`:
the tier name is over-long, the tier is absent, or the user is already
whitelisted. -/
def invalidPairB (p : Presale) (tier_name : String) (user : Pubkey) : Bool :=
  decide (MAX_TIER_NAME_LENGTH < tier_name.utf8ByteSize)
    || ! containsKey p.tiers (normalizeTier tier_name)
    || containsKey p.whitelist user

/-- Whether a Presale operation is a `refund` invocation. -/
def isRefundOp : PresaleOp → Bool
  | .opRefund _ _ => true
  | _ => false

/-- Presale operations whose every error is raised before the first state
write (so the body returns the input state on error): all operations except
`initialize` (tier loop after the scalar writes), `update_user_tier` (checked
add after the old-tier write), and `contribute` / `refund` with a failing
transfer (transfer after the bookkeeping writes). -/
def pcleanOp : PresaleOp → Bool
  | .opInit _ _ _ _ _ _ => false
  | .opUpdateUserTier _ _ => false
  | .opContribute _ _ _ tOk => tOk
  | .opRefund _ tOk => tOk
  | _ => true

/-- Distribution operations whose every error is raised before the first
state write: all except `batch_set_contributions` and `calculate_allocations`
(per-element validation inside the mutation loop) and `claim` with a failing
transfer. -/
def dcleanOp : DistOp → Bool
  | .opBatchSet _ _ _ => false
  | .opCalc _ _ => false
  | .opClaim _ tOk => tOk
  | _ => true

/-- Inductive invariant of the Presale ledger used for the sum property:
an uninitialized state is still in its pristine shape, and while no refund
has been recorded, `total_contributions` equals the recorded sum. -/
def PInv (s : Presale) : Prop :=
  (s.is_initialized = false →
     s.contributions = [] ∧ s.total_contributions = 0 ∧ s.refunded = [] ∧
     s.is_active = false) ∧
  (s.refunded = [] → s.total_contributions = sumMap s.contributions)

/-! ## Concrete reachable states used by counterexamples and witnesses -/

/-- Fresh Presale account. -/
def pc0 : Presale := presaleDefault
/-- After `initialize` with tiers gold ↦ 1000 and silver ↦ 100, minimum
contribution 10, hard cap 1100. -/
def pc1 : Presale :=
  (stepPresale pc0 (.opInit 7 9 ["gold", "silver"] [1000, 100] 10 1100)).1
/-- After `assign_tier` of user 1 to gold. -/
def pc2 : Presale := (stepPresale pc1 (.opAssignTier 1 "gold")).1
/-- After user 1 contributes 500. -/
def pc3 : Presale := (stepPresale pc2 (.opContribute 1 500 true true)).1
/-- After `close_presale` with refunds allowed. -/
def pc4 : Presale := (stepPresale pc3 (.opClosePresale true)).1
/-- After user 1 is refunded. -/
def pc5 : Presale := (stepPresale pc4 (.opRefund 1 true)).1

/-- Branch from `pc3`: user 1 removed from the whitelist. -/
def pb4 : Presale := (stepPresale pc3 (.opRemoveUser 1)).1
/-- Branch from `pc3`: user 1 re-assigned to silver (cap 100) while holding a
recorded contribution of 500. -/
def pb5 : Presale := (stepPresale pb4 (.opAssignTier 1 "silver")).1

/-- Fresh Presale account that has been paused. -/
def pp1 : Presale := (stepPresale pc0 .opPausePresale).1
/-- `create_tier` executed on the paused state `pp1`. -/
def pp2 : Presale := (stepPresale pp1 (.opCreateTier "gold" 1000)).1

/-- Fresh Distribution account. -/
def dc0 : DistState := distDefault
/-- After `initialize_distribution` with owner 3, batch size 10. -/
def dc1 : DistState := (stepDist dc0 (.opInitDist 3 10)).1
/-- After `set_token` with mint 5. -/
def dc2 : DistState := (stepDist dc1 (.opSetToken 3 5)).1
/-- After `batch_set_contributions` recording 300 for user 1 and 700 for
user 2 (`total_raised = 1000`). -/
def dc3 : DistState := (stepDist dc2 (.opBatchSet 3 [1, 2] [300, 700])).1
/-- After `calculate_allocations` over a token balance of 50
(allocations 15 and 35). -/
def dc4 : DistState := (stepDist dc3 (.opCalc 3 50)).1

/-- Distribution state exhibiting the 64-bit multiply overflow: one
contributor with contribution `2^33`, `total_raised = 2^33`; against a token
balance of `2^32` the product `2^65` is not representable in 64 bits although
the quotient `2^32` is. -/
def dOv : DistState :=
  { owner := 3, token_mint := 5, total_raised := 8589934592,
    allocation_calculated := false, claim_enabled := false,
    max_batch_size := 10, claim_period_open := false, paused := false,
    contributors := [{ user := 1, contribution := 8589934592, allocation := 0 }] }

/-- Distribution state with claims enabled and open, carrying one contributor
with a positive allocation (used to exercise `claim`). -/
def dCl : DistState :=
  { owner := 3, token_mint := 5, total_raised := 100,
    allocation_calculated := true, claim_enabled := true,
    max_batch_size := 10, claim_period_open := true, paused := false,
    contributors := [{ user := 1, contribution := 100, allocation := 40 }] }

/-! ## Helper lemmas: maps, wrapping arithmetic, contributor lists -/

theorem lookupKey_insertKey_self {κ ν : Type} [DecidableEq κ]
    (m : List (κ × ν)) (k : κ) (v : ν) :
    lookupKey (insertKey m k v) k = some v := by
  induction m with
  | nil => simp [insertKey, lookupKey]
  | cons hd tl ih =>
    obtain ⟨k', v'⟩ := hd
    by_cases h : k' = k
    · simp [insertKey, lookupKey, h]
    · simp [insertKey, lookupKey, h, ih]

theorem sumMap_insertKey {κ : Type} [DecidableEq κ]
    (m : List (κ × Nat)) (k : κ) (v : Nat) :
    sumMap (insertKey m k v) + (lookupKey m k).getD 0 = sumMap m + v := by
  induction m with
  | nil => simp [insertKey, sumMap, lookupKey]
  | cons hd tl ih =>
    obtain ⟨k', v'⟩ := hd
    by_cases h : k' = k
    · simp [insertKey, sumMap, lookupKey, h]; omega
    · simp [insertKey, sumMap, lookupKey, h]; omega

theorem lookupKey_getD_le_sumMap {κ : Type} [DecidableEq κ]
    (m : List (κ × Nat)) (k : κ) :
    (lookupKey m k).getD 0 ≤ sumMap m := by
  induction m with
  | nil => simp [lookupKey, sumMap]
  | cons hd tl ih =>
    obtain ⟨k', v'⟩ := hd
    by_cases h : k' = k
    · simp [lookupKey, sumMap, h]
    · simp [lookupKey, sumMap, h]; omega

theorem U64LIM_pos : 0 < U64LIM := by decide

theorem add64_eq {a b : Nat} (h : a + b < U64LIM) : add64 a b = a + b := by
  unfold add64; exact Nat.mod_eq_of_lt h

theorem sub64_eq {a b : Nat} (hba : b ≤ a) (ha : a < U64LIM) : sub64 a b = a - b := by
  have hb : b < U64LIM := lt_of_le_of_lt hba ha
  unfold sub64
  rw [Nat.mod_eq_of_lt hb]
  have h1 : a + U64LIM - b = (a - b) + U64LIM := by omega
  rw [h1, Nat.add_mod_right, Nat.mod_eq_of_lt (by omega)]

theorem add64_sub64_cancel {t a : Nat} (ht : t < U64LIM) (ha : a < U64LIM) :
    sub64 (add64 t a) a = t := by
  by_cases h : t + a < U64LIM
  · rw [add64_eq h, sub64_eq (by omega) h]; omega
  · unfold add64 sub64
    rw [Nat.mod_eq_of_lt ha]
    have h2 : (t + a) % U64LIM = t + a - U64LIM := by
      rw [Nat.mod_eq_sub_mod (by omega), Nat.mod_eq_of_lt (by omega)]
    rw [h2]
    have h3 : t + a - U64LIM + U64LIM - a = t := by omega
    rw [h3, Nat.mod_eq_of_lt ht]

theorem sub64_modEq (t c : Nat) :
    sub64 t c ≡ t + (U64LIM - c % U64LIM) [MOD U64LIM] := by
  unfold sub64
  have h : t + U64LIM - c % U64LIM = t + (U64LIM - c % U64LIM) := by
    have := Nat.mod_lt c (U64LIM_pos); omega
  rw [h]
  exact (Nat.mod_modEq _ _)

theorem findContributor_eq_none (l : List Contributor) (u : Pubkey)
    (h : findContributor l u = none) : ∀ c ∈ l, c.user ≠ u := by
  induction l with
  | nil => simp
  | cons hd tl ih =>
    intro c hc
    unfold findContributor at h
    by_cases hu : hd.user = u
    · simp [hu] at h
    · cases hc with
      | head => exact hu
      | tail _ hmem => exact ih (by simpa [hu] using h) c hmem

theorem findContributor_append_single (l : List Contributor) (c : Contributor)
    (u : Pubkey) (hnone : findContributor l u = none) (hu : c.user = u) :
    findContributor (l ++ [c]) u = some c := by
  induction l with
  | nil => simp [findContributor, hu]
  | cons hd tl ih =>
    unfold findContributor at hnone ⊢
    by_cases h : hd.user = u
    · simp [h] at hnone
    · simpa [h] using ih (by simpa [h] using hnone)

theorem updateContribution_append_single (l : List Contributor) (c : Contributor)
    (u : Pubkey) (a : Nat) (hnone : findContributor l u = none) (hu : c.user = u) :
    updateContribution (l ++ [c]) u a = l ++ [{ c with contribution := a }] := by
  induction l with
  | nil => simp [updateContribution, hu]
  | cons hd tl ih =>
    unfold findContributor at hnone
    unfold updateContribution
    by_cases h : hd.user = u
    · simp [h] at hnone
    · simpa [h] using ih (by simpa [h] using hnone)

theorem sumC_append (l₁ l₂ : List Contributor) :
    sumC (l₁ ++ l₂) = sumC l₁ + sumC l₂ := by
  induction l₁ with
  | nil => simp [sumC]
  | cons hd tl ih => simp [sumC, ih]; omega

theorem sumC_updateContribution (l : List Contributor) (u : Pubkey) (a : Nat)
    (c : Contributor) (hfind : findContributor l u = some c) :
    sumC (updateContribution l u a) + c.contribution = sumC l + a := by
  induction l with
  | nil => simp [findContributor] at hfind
  | cons hd tl ih =>
    by_cases h : hd.user = u
    · unfold findContributor at hfind
      rw [if_pos h] at hfind
      obtain rfl : hd = c := by injection hfind
      unfold updateContribution
      rw [if_pos h]
      simp [sumC]; omega
    · unfold findContributor at hfind
      rw [if_neg h] at hfind
      unfold updateContribution
      rw [if_neg h]
      simp only [sumC]
      have := ih hfind
      omega

theorem findContributor_zeroAllocation (l : List Contributor) (u : Pubkey)
    (c : Contributor) (hfind : findContributor l u = some c) :
    findContributor (zeroAllocation l u) u = some { c with allocation := 0 } := by
  induction l with
  | nil => simp [findContributor] at hfind
  | cons hd tl ih =>
    unfold findContributor at hfind
    unfold zeroAllocation
    by_cases h : hd.user = u
    · simp [h] at hfind
      subst hfind
      simp [findContributor, h]
    · simp [h] at hfind ⊢
      simpa [findContributor, h] using ih hfind

theorem foldl_add64_eq (l : List Nat) (acc : Nat) (h : acc + l.sum < U64LIM) :
    l.foldl add64 acc = acc + l.sum := by
  induction l generalizing acc with
  | nil => simp
  | cons hd tl ih =>
    simp only [List.foldl_cons, List.sum_cons] at h ⊢
    rw [add64_eq (by omega), ih (acc + hd) (by omega)]
    omega

theorem sum64_eq (l : List Nat) (h : l.sum < U64LIM) : sum64 l = l.sum := by
  unfold sum64
  simpa using foldl_add64_eq l 0 (by omega)

/-- C10: on an uninitialized Presale whose other scalar validations pass, an
`initialize` call with `hard_cap` strictly below the sum of the supplied tier
caps fails with `HardCapLessThanTierMax`, leaving the account state (in
particular `is_initialized = false`) untouched. -/
theorem c10_init_hard_cap_below_tier_sum (p : Presale) (owner usdt_mint : Pubkey)
    (tier_names : List String) (tier_max_contributions : List Nat)
    (min_contribution hard_cap : Nat)
    (hinit : p.is_initialized = false)
    (hmin : 0 < min_contribution)
    (hcap : 0 < hard_cap)
    (hlen : tier_names.length ≤ MAX_TIERS)
    (heq : tier_names.length = tier_max_contributions.length)
    (hsum : tier_max_contributions.sum < U64LIM)
    (hlt : hard_cap < tier_max_contributions.sum) :
    init_presale p owner usdt_mint tier_names tier_max_contributions
      min_contribution hard_cap = (p, some .HardCapLessThanTierMax) := by
  unfold init_presale
  rw [hinit]
  simp only [Bool.false_eq_true, if_false]
  rw [if_neg (by omega), if_neg (by omega), if_neg (by omega), if_neg (by omega),
    if_pos (by rw [sum64_eq _ hsum]; exact hlt)]

/-- Witness for C10 at a concrete input: tier gold ↦ 1000 against a hard cap
of 500. -/
theorem c10_init_hard_cap_below_tier_sum_witness :
    init_presale pc0 7 9 ["gold"] [1000] 10 500 =
      (pc0, some .HardCapLessThanTierMax) :=
  c10_init_hard_cap_below_tier_sum pc0 7 9 ["gold"] [1000] 10 500
    (by decide) (by decide) (by decide) (by decide) (by decide) (by decide)
    (by decide)

theorem bulkValidate_isSome_of_invalid (p : Presale)
    (l : List (String × Pubkey)) (t : String) (u : Pubkey)
    (hmem : (t, u) ∈ l) (hbad : invalidPairB p t u = true) :
    (bulkValidate p l).isSome := by
  induction l with
  | nil => simp at hmem
  | cons hd tl ih =>
    obtain ⟨t', u'⟩ := hd
    rw [List.mem_cons] at hmem
    unfold bulkValidate
    by_cases h1 : MAX_TIER_NAME_LENGTH < t'.utf8ByteSize
    · simp [h1]
    · rw [if_neg h1]
      by_cases h2 : containsKey p.tiers (normalizeTier t') = true
      · rw [if_neg (by simp [h2])]
        by_cases h3 : containsKey p.whitelist u' = true
        · simp [h3]
        · rw [if_neg (by simp [h3])]
          rcases hmem with heq | hmem
          · cases heq
            simp [invalidPairB, h1, h2, h3] at hbad
          · exact ih hmem
      · simp [h2]

/-- C6: a `bulk_assign_tiers` call whose input contains an invalid
`(tier, user)` pair — tier name over-long, tier absent, or user already
whitelisted — fails and returns the starting state unchanged: no prefix of
the batch is applied. -/
theorem c6_bulk_assign_atomic (p : Presale) (users : List Pubkey)
    (tiers : List String) (t : String) (u : Pubkey)
    (hmem : (t, u) ∈ tiers.zip users) (hbad : invalidPairB p t u = true) :
    (bulk_assign_tiers p users tiers).1 = p ∧
      (bulk_assign_tiers p users tiers).2.isSome := by
  unfold bulk_assign_tiers
  by_cases h1 : users.length ≠ tiers.length
  · simp [h1]
  · rw [if_neg h1]
    by_cases h2 : MAX_BULK_ASSIGN < users.length
    · simp [h2]
    · rw [if_neg h2]
      by_cases h3 : MAX_USERS < p.whitelist.length + users.length
      · simp [h3]
      · rw [if_neg h3]
        have hv := bulkValidate_isSome_of_invalid p (tiers.zip users) t u hmem hbad
        obtain ⟨e, he⟩ := Option.isSome_iff_exists.mp hv
        rw [he]
        simp

/-- Witness for C6 at a concrete input: on `pc1` (tiers gold/silver, empty
whitelist) a batch `[("gold", 1), ("bronze", 2)]` contains the invalid pair
`("bronze", 2)` (tier absent), so the whole call is rejected unchanged. -/
theorem c6_bulk_assign_atomic_witness :
    (bulk_assign_tiers pc1 [1, 2] ["gold", "bronze"]).1 = pc1 ∧
      (bulk_assign_tiers pc1 [1, 2] ["gold", "bronze"]).2.isSome :=
  c6_bulk_assign_atomic pc1 [1, 2] ["gold", "bronze"] "bronze" 2
    (by decide) (by decide)

/-- C5: with claims enabled, the claim period open and the contract not
paused, a contributor holding a positive allocation claims successfully
exactly once.  The successful call returns the state with the stored
allocation zeroed; the same zeroed state is produced even when the asset
transfer fails (the zeroing precedes the transfer invocation); and a second
call on the resulting state fails with `NothingToClaim`. -/
theorem c5_one_shot_claim (d : DistState) (u : Pubkey) (c : Contributor)
    (hp : d.paused = false) (hce : d.claim_enabled = true)
    (hcp : d.claim_period_open = true)
    (hfind : findContributor d.contributors u = some c)
    (hpos : 0 < c.allocation) :
    claim d u true = ({ d with contributors := zeroAllocation d.contributors u }, none) ∧
    claim d u false =
      ({ d with contributors := zeroAllocation d.contributors u }, some .TransferFailed) ∧
    (∀ tOk, claim { d with contributors := zeroAllocation d.contributors u } u tOk =
      ({ d with contributors := zeroAllocation d.contributors u }, some .NothingToClaim)) := by
  have hz := findContributor_zeroAllocation d.contributors u c hfind
  have hne : c.allocation ≠ 0 := Nat.pos_iff_ne_zero.mp hpos
  refine ⟨?_, ?_, ?_⟩
  · unfold claim
    rw [hp, hce, hcp]
    simp [hfind, hne]
  · unfold claim
    rw [hp, hce, hcp]
    simp [hfind, hne]
  · intro tOk
    unfold claim
    simp only [hp, hce, hcp]
    simp [hz]

/-- Witness for C5 at the concrete state `dCl` (one contributor, user 1,
allocation 40). -/
theorem c5_one_shot_claim_witness :
    claim dCl 1 true = ({ dCl with contributors := zeroAllocation dCl.contributors 1 }, none) ∧
    claim dCl 1 false =
      ({ dCl with contributors := zeroAllocation dCl.contributors 1 }, some .TransferFailed) ∧
    (∀ tOk, claim { dCl with contributors := zeroAllocation dCl.contributors 1 } 1 tOk =
      ({ dCl with contributors := zeroAllocation dCl.contributors 1 }, some .NothingToClaim)) :=
  c5_one_shot_claim dCl 1 { user := 1, contribution := 100, allocation := 40 }
    (by decide) (by decide) (by decide) (by decide) (by decide)

theorem preach_pc1 : PReach pc1 :=
  PReach.step (.opInit 7 9 ["gold", "silver"] [1000, 100] 10 1100)
    PReach.start (by decide)

theorem preach_pc2 : PReach pc2 :=
  PReach.step (.opAssignTier 1 "gold") preach_pc1 (by decide)

theorem preach_pc3 : PReach pc3 :=
  PReach.step (.opContribute 1 500 true true) preach_pc2 (by decide)

theorem preach_pc4 : PReach pc4 :=
  PReach.step (.opClosePresale true) preach_pc3 (by decide)

theorem preach_pc5 : PReach pc5 :=
  PReach.step (.opRefund 1 true) preach_pc4 (by decide)

theorem preach_pb4 : PReach pb4 :=
  PReach.step (.opRemoveUser 1) preach_pc3 (by decide)

theorem preach_pb5 : PReach pb5 :=
  PReach.step (.opAssignTier 1 "silver") preach_pb4 (by decide)

theorem preach_pp1 : PReach pp1 :=
  PReach.step .opPausePresale PReach.start (by decide)

theorem dreach_dc1 : DReach dc1 :=
  DReach.step (.opInitDist 3 10) DReach.start (by decide)

theorem dreach_dc2 : DReach dc2 :=
  DReach.step (.opSetToken 3 5) dreach_dc1 (by decide)

theorem dreach_dc3 : DReach dc3 :=
  DReach.step (.opBatchSet 3 [1, 2] [300, 700]) dreach_dc2 (by decide)

/-- C4 (counterexample): from the reachable closed-with-refunds state `pc4`,
user 1's first refund succeeds, but the second refund call fails with
`NoContributionsToRefund` — not `AlreadyRefunded` as the claim states —
because the zeroed contribution trips the positive-contribution check before
the refunded flag is consulted. -/
theorem c4_second_refund_error_cex :
    PReach pc4 ∧
    stepPresale pc4 (.opRefund 1 true) = (pc5, none) ∧
    stepPresale pc5 (.opRefund 1 true) = (pc5, some .NoContributionsToRefund) ∧
    (stepPresale pc5 (.opRefund 1 true)).2 ≠ some .AlreadyRefunded :=
  ⟨preach_pc4, by decide, by decide, by decide⟩

/-- C4 (amended): in a closed, refunds-allowed, unpaused Presale state, a
participant with a positive recorded contribution and no prior refund is
refunded successfully once; the second call in succession fails with
`NoContributionsToRefund` (the `AlreadyRefunded` check sits behind the
positive-contribution check, which the zeroed contribution now fails),
leaving the state unchanged. -/
theorem c4_one_shot_refund (p : Presale) (u : Pubkey)
    (hp : p.paused = false) (hc : p.is_closed = true)
    (hr : p.refunds_allowed = true)
    (hpos : 0 < (lookupKey p.contributions u).getD 0)
    (hnr : (lookupKey p.refunded u).getD false = false) :
    refund p u true =
      ({ p with contributions := insertKey p.contributions u 0,
                refunded := insertKey p.refunded u true }, none) ∧
    (∀ tOk, refund { p with contributions := insertKey p.contributions u 0,
                            refunded := insertKey p.refunded u true } u tOk =
      ({ p with contributions := insertKey p.contributions u 0,
                refunded := insertKey p.refunded u true },
        some .NoContributionsToRefund)) := by
  have hne : (lookupKey p.contributions u).getD 0 ≠ 0 := Nat.pos_iff_ne_zero.mp hpos
  constructor
  · unfold refund
    rw [hp, hc, hr]
    simp [hne, hnr]
  · intro tOk
    unfold refund
    simp only [hp, hc, hr]
    simp [lookupKey_insertKey_self]

/-- Witness for C4 (amended) at the concrete reachable state `pc4`. -/
theorem c4_one_shot_refund_witness :
    refund pc4 1 true =
      ({ pc4 with contributions := insertKey pc4.contributions 1 0,
                  refunded := insertKey pc4.refunded 1 true }, none) ∧
    (∀ tOk, refund { pc4 with contributions := insertKey pc4.contributions 1 0,
                              refunded := insertKey pc4.refunded 1 true } 1 tOk =
      ({ pc4 with contributions := insertKey pc4.contributions 1 0,
                  refunded := insertKey pc4.refunded 1 true },
        some .NoContributionsToRefund)) :=
  c4_one_shot_refund pc4 1 (by decide) (by decide) (by decide) (by decide) (by decide)

/-- C9 (counterexample): `pp1` is a reachable paused state, yet the mutating
operation `create_tier` succeeds on it and changes the state — the `paused`
flag does not gate tier management. -/
theorem c9_paused_gates_all_cex :
    PReach pp1 ∧ pp1.paused = true ∧
    stepPresale pp1 (.opCreateTier "gold" 1000) = (pp2, none) ∧ pp2 ≠ pp1 :=
  ⟨preach_pp1, by decide, by decide, by decide⟩

/-- C9 (amended): while `paused` is set, `contribute`, `close_presale`,
`withdraw_funds` and `refund` fail with `PresalePaused` leaving the state
unchanged, and `pause_presale` fails with `PresaleAlreadyPaused`;
`pause_presale` succeeds exactly from `paused = false` and
`unpause_presale` exactly from `paused = true`.  Tier and whitelist
management is *not* gated by `paused`: on the reachable paused state `pp1`,
`create_tier` succeeds and mutates the state. -/
theorem c9_paused_gating (p : Presale) :
    (∀ u a oOk tOk, p.paused = true →
        contribute p u a oOk tOk = (p, some .PresalePaused)) ∧
    (∀ r, p.paused = true → close_presale p r = (p, some .PresalePaused)) ∧
    (∀ b tOk, p.paused = true → withdraw_funds p b tOk = (p, some .PresalePaused)) ∧
    (∀ u tOk, p.paused = true → refund p u tOk = (p, some .PresalePaused)) ∧
    (p.paused = true → pause_presale p = (p, some .PresaleAlreadyPaused)) ∧
    (p.paused = false → pause_presale p = ({ p with paused := true }, none)) ∧
    (p.paused = true → unpause_presale p = ({ p with paused := false }, none)) ∧
    (p.paused = false → unpause_presale p = (p, some .PresaleNotPaused)) ∧
    (PReach pp1 ∧ pp1.paused = true ∧
      (stepPresale pp1 (.opCreateTier "gold" 1000)).2 = none ∧
      (stepPresale pp1 (.opCreateTier "gold" 1000)).1 ≠ pp1) := by
  refine ⟨?_, ?_, ?_, ?_, ?_, ?_, ?_, ?_, preach_pp1, by decide, by decide, by decide⟩
  · intro u a oOk tOk hp; unfold contribute; rw [hp]; simp
  · intro r hp; unfold close_presale; rw [hp]; simp
  · intro b tOk hp; unfold withdraw_funds; rw [hp]; simp
  · intro u tOk hp; unfold refund; rw [hp]; simp
  · intro hp; unfold pause_presale; rw [hp]; simp
  · intro hp; unfold pause_presale; rw [hp]; simp
  · intro hp; unfold unpause_presale; rw [hp]; simp
  · intro hp; unfold unpause_presale; rw [hp]; simp

/-- Witness for C9 (amended) at the concrete paused state `pp1`. -/
theorem c9_paused_gating_witness :
    contribute pp1 1 500 true true = (pp1, some .PresalePaused) ∧
    close_presale pp1 true = (pp1, some .PresalePaused) ∧
    withdraw_funds pp1 100 true = (pp1, some .PresalePaused) ∧
    refund pp1 1 true = (pp1, some .PresalePaused) ∧
    pause_presale pp1 = (pp1, some .PresaleAlreadyPaused) ∧
    unpause_presale pp1 = ({ pp1 with paused := false }, none) ∧
    pause_presale pc0 = ({ pc0 with paused := true }, none) ∧
    unpause_presale pc0 = (pc0, some .PresaleNotPaused) :=
  ⟨(c9_paused_gating pp1).1 1 500 true true (by decide),
   (c9_paused_gating pp1).2.1 true (by decide),
   (c9_paused_gating pp1).2.2.1 100 true (by decide),
   (c9_paused_gating pp1).2.2.2.1 1 true (by decide),
   (c9_paused_gating pp1).2.2.2.2.1 (by decide),
   (c9_paused_gating pp1).2.2.2.2.2.2.1 (by decide),
   (c9_paused_gating pc0).2.2.2.2.2.1 (by decide),
   (c9_paused_gating pc0).2.2.2.2.2.2.2.1 (by decide)⟩

theorem bscLoop_single (cs : List Contributor) (t : Nat) (u : Pubkey) (v : Nat)
    (hv : v ≠ 0) :
    bscLoop cs t [] [(u, v)] =
      match findContributor cs u with
      | some c => (updateContribution cs u v, add64 (sub64 t c.contribution) v, none)
      | none => (cs ++ [{ user := u, contribution := v, allocation := 0 }],
                 add64 t v, none) := by
  cases hcase : findContributor cs u with
  | some c => simp [bscLoop, hv, hcase]
  | none => simp [bscLoop, hv, hcase]

theorem batch_set_single (d : DistState) (auth u : Pubkey) (v : Nat)
    (hown : d.owner = auth) (hp : d.paused = false)
    (hac : d.allocation_calculated = false) (hmb : 1 ≤ d.max_batch_size)
    (hv : v ≠ 0) :
    batch_set_contributions d auth [u] [v] =
      match findContributor d.contributors u with
      | some c =>
        ({ d with contributors := updateContribution d.contributors u v,
                  total_raised := add64 (sub64 d.total_raised c.contribution) v }, none)
      | none =>
        ({ d with contributors :=
                    d.contributors ++ [{ user := u, contribution := v, allocation := 0 }],
                  total_raised := add64 d.total_raised v }, none) := by
  unfold batch_set_contributions
  rw [if_neg (by simp [hown]), if_neg (by simp [hp]), if_neg (by simp [hac]),
    if_neg (by simp), if_neg (by simp; omega)]
  rw [show [u].zip [v] = [(u, v)] from rfl, bscLoop_single d.contributors d.total_raised u v hv]
  cases hcase : findContributor d.contributors u with
  | some c => simp [hcase]
  | none => simp [hcase]

/-- C8: two successful `batch_set_contributions` calls supplying amounts `a`
then `b` for the same (previously unrecorded) user leave the user's recorded
contribution at `b`, with `total_raised` adjusted by the delta so that it
reflects only the latest amount (`total + b`, not `total + a + b`); and
re-supplying the first amount leaves the state exactly unchanged. -/
theorem c8_batch_set_idempotent (d : DistState) (auth : Pubkey) (u : Pubkey)
    (a b : Nat)
    (hown : d.owner = auth) (hp : d.paused = false)
    (hac : d.allocation_calculated = false) (hmb : 1 ≤ d.max_batch_size)
    (ha : 0 < a) (hb : 0 < b)
    (hfind : findContributor d.contributors u = none)
    (hlim : d.total_raised + a + b < U64LIM) :
    batch_set_contributions d auth [u] [a] =
      ({ d with contributors := d.contributors ++ [{ user := u, contribution := a, allocation := 0 }],
                total_raised := d.total_raised + a }, none) ∧
    batch_set_contributions
      { d with contributors := d.contributors ++ [{ user := u, contribution := a, allocation := 0 }],
               total_raised := d.total_raised + a } auth [u] [b] =
      ({ d with contributors := d.contributors ++ [{ user := u, contribution := b, allocation := 0 }],
                total_raised := d.total_raised + b }, none) ∧
    batch_set_contributions
      { d with contributors := d.contributors ++ [{ user := u, contribution := a, allocation := 0 }],
               total_raised := d.total_raised + a } auth [u] [a] =
      ({ d with contributors := d.contributors ++ [{ user := u, contribution := a, allocation := 0 }],
                total_raised := d.total_raised + a }, none) ∧
    findContributor (d.contributors ++ [{ user := u, contribution := b, allocation := 0 }]) u =
      some { user := u, contribution := b, allocation := 0 } := by
  have hane : a ≠ 0 := Nat.pos_iff_ne_zero.mp ha
  have hbne : b ≠ 0 := Nat.pos_iff_ne_zero.mp hb
  have hmb' : ¬ (1 > d.max_batch_size) := by omega
  have hfind₁ :
      findContributor (d.contributors ++ [{ user := u, contribution := a, allocation := 0 }]) u =
        some { user := u, contribution := a, allocation := 0 } :=
    findContributor_append_single _ _ _ hfind rfl
  have hupd : ∀ v : Nat,
      updateContribution (d.contributors ++ [{ user := u, contribution := a, allocation := 0 }]) u v =
        d.contributors ++ [{ user := u, contribution := v, allocation := 0 }] := by
    intro v
    exact updateContribution_append_single _ _ _ _ hfind rfl
  have hsub : sub64 (d.total_raised + a) a = d.total_raised := by
    rw [sub64_eq (by omega) (by omega)]; omega
  refine ⟨?_, ?_, ?_, findContributor_append_single _ _ _ hfind rfl⟩
  · rw [batch_set_single d auth u a hown hp hac hmb hane, hfind,
      add64_eq (show d.total_raised + a < U64LIM by omega)]
  · rw [batch_set_single
      { d with contributors :=
                 d.contributors ++ [{ user := u, contribution := a, allocation := 0 }],
               total_raised := d.total_raised + a } auth u b hown hp hac hmb hbne]
    simp only [hfind₁, hupd b, hsub]
    rw [add64_eq (show d.total_raised + b < U64LIM by omega)]
  · rw [batch_set_single
      { d with contributors :=
                 d.contributors ++ [{ user := u, contribution := a, allocation := 0 }],
               total_raised := d.total_raised + a } auth u a hown hp hac hmb hane]
    simp only [hfind₁, hupd a, hsub]
    rw [add64_eq (show d.total_raised + a < U64LIM by omega)]

/-- Witness for C8 at the concrete reachable state `dc2` (owner 3, empty
contributor list), with the spec's amounts 100 then 60 for user 4. -/
theorem c8_batch_set_idempotent_witness :
    batch_set_contributions dc2 3 [4] [100] =
      ({ dc2 with contributors := dc2.contributors ++ [{ user := 4, contribution := 100, allocation := 0 }],
                  total_raised := dc2.total_raised + 100 }, none) ∧
    batch_set_contributions
      { dc2 with contributors := dc2.contributors ++ [{ user := 4, contribution := 100, allocation := 0 }],
                 total_raised := dc2.total_raised + 100 } 3 [4] [60] =
      ({ dc2 with contributors := dc2.contributors ++ [{ user := 4, contribution := 60, allocation := 0 }],
                  total_raised := dc2.total_raised + 60 }, none) ∧
    batch_set_contributions
      { dc2 with contributors := dc2.contributors ++ [{ user := 4, contribution := 100, allocation := 0 }],
                 total_raised := dc2.total_raised + 100 } 3 [4] [100] =
      ({ dc2 with contributors := dc2.contributors ++ [{ user := 4, contribution := 100, allocation := 0 }],
                  total_raised := dc2.total_raised + 100 }, none) ∧
    findContributor (dc2.contributors ++ [{ user := 4, contribution := 60, allocation := 0 }]) 4 =
      some { user := 4, contribution := 60, allocation := 0 } :=
  c8_batch_set_idempotent dc2 3 4 100 60 (by decide) (by decide) (by decide)
    (by decide) (by decide) (by decide) (by decide) (by decide)

theorem checkedAdd_some {a b c : Nat} (h : checkedAdd a b = some c) :
    c = a + b ∧ a + b < U64LIM := by
  unfold checkedAdd at h
  split at h
  · injection h with h1; omega
  · exact absurd h (by simp)

theorem checkedMul_some {a b c : Nat} (h : checkedMul a b = some c) :
    c = a * b ∧ a * b < U64LIM := by
  unfold checkedMul at h
  split at h
  · injection h with h1; constructor; omega; assumption
  · exact absurd h (by simp)

/-- Pointwise relation established by a successful `calcLoop` pass. -/
def allocRel (T R : Nat) (c c' : Contributor) : Prop :=
  c'.user = c.user ∧ c'.contribution = c.contribution ∧
    (0 < c.contribution → c'.allocation = c.contribution * T / R) ∧
    (c.contribution = 0 → c'.allocation = c.allocation)

theorem calcLoop_success_forall2 (T R : Nat) (l : List Contributor) :
    ∀ acc l' a, calcLoop T R acc l = (l', a, none) →
      List.Forall₂ (allocRel T R) l l' := by
  induction l with
  | nil =>
    intro acc l' a h
    unfold calcLoop at h
    simp only [Prod.mk.injEq] at h
    rw [← h.1]
    exact List.Forall₂.nil
  | cons hd tl ih =>
    intro acc l' a h
    unfold calcLoop at h
    by_cases hpos : 0 < hd.contribution
    · rw [if_pos hpos] at h
      cases hm : checkedMul hd.contribution T with
      | none => simp only [hm] at h; simp at h
      | some prod =>
        simp only [hm] at h
        cases hadd : checkedAdd acc (prod / R) with
        | none => simp only [hadd] at h; simp at h
        | some acc' =>
          simp only [hadd] at h
          obtain ⟨⟨rest', a', e⟩, hrec⟩ :
              ∃ x, calcLoop T R acc' tl = x := ⟨_, rfl⟩
          simp only [hrec] at h
          simp only [Prod.mk.injEq] at h
          obtain ⟨h1, _, h3⟩ := h
          subst h3
          rw [← h1]
          refine List.Forall₂.cons ?_ (ih acc' rest' a' hrec)
          refine ⟨rfl, rfl, ?_, ?_⟩
          · intro _
            simp [(checkedMul_some hm).1]
          · intro hz; omega
    · rw [if_neg hpos] at h
      obtain ⟨⟨rest', a', e⟩, hrec⟩ :
          ∃ x, calcLoop T R acc tl = x := ⟨_, rfl⟩
      simp only [hrec] at h
      simp only [Prod.mk.injEq] at h
      obtain ⟨h1, _, h3⟩ := h
      subst h3
      rw [← h1]
      refine List.Forall₂.cons ?_ (ih acc rest' a' hrec)
      exact ⟨rfl, rfl, fun hp => absurd hp hpos, fun _ => rfl⟩

theorem calcLoop_success_sum (T R : Nat) (l : List Contributor) :
    ∀ acc l' a, calcLoop T R acc l = (l', a, none) →
      (∀ c ∈ l, 0 < c.contribution) → a = acc + sumAlloc l' := by
  induction l with
  | nil =>
    intro acc l' a h _
    unfold calcLoop at h
    simp only [Prod.mk.injEq] at h
    rw [← h.1, ← h.2.1]
    simp [sumAlloc]
  | cons hd tl ih =>
    intro acc l' a h hpos
    unfold calcLoop at h
    rw [if_pos (hpos hd (by simp))] at h
    cases hm : checkedMul hd.contribution T with
    | none => simp only [hm] at h; simp at h
    | some prod =>
      simp only [hm] at h
      cases hadd : checkedAdd acc (prod / R) with
      | none => simp only [hadd] at h; simp at h
      | some acc' =>
        simp only [hadd] at h
        obtain ⟨⟨rest', a', e⟩, hrec⟩ :
            ∃ x, calcLoop T R acc' tl = x := ⟨_, rfl⟩
        simp only [hrec] at h
        simp only [Prod.mk.injEq] at h
        obtain ⟨h1, h2, h3⟩ := h
        subst h3
        have := ih acc' rest' a' hrec (fun c hc => hpos c (by simp [hc]))
        rw [← h1, ← h2]
        simp only [sumAlloc]
        have hacc' := (checkedAdd_some hadd).1
        omega

theorem calcLoop_overflow (T R : Nat) (l : List Contributor) :
    ∀ acc, (∃ c ∈ l, U64LIM ≤ c.contribution * T) →
      (calcLoop T R acc l).2.2 = some .Overflow := by
  induction l with
  | nil => intro acc hex; simp at hex
  | cons hd tl ih =>
    intro acc hex
    obtain ⟨c, hc, hcle⟩ := hex
    rw [List.mem_cons] at hc
    unfold calcLoop
    by_cases hpos : 0 < hd.contribution
    · rw [if_pos hpos]
      cases hm : checkedMul hd.contribution T with
      | none => simp
      | some prod =>
        have hhd : hd.contribution * T < U64LIM := (checkedMul_some hm).2
        have hex' : ∃ c ∈ tl, U64LIM ≤ c.contribution * T := by
          rcases hc with rfl | hc
          · omega
          · exact ⟨c, hc, hcle⟩
        simp only [hm]
        cases hadd : checkedAdd acc (prod / R) with
        | none => simp [hadd]
        | some acc' =>
          simp only [hadd]
          have := ih acc' hex'
          obtain ⟨⟨rest', a', e⟩, hrec⟩ :
              ∃ x, calcLoop T R acc' tl = x := ⟨_, rfl⟩
          rw [hrec] at this
          simp only [hrec]
          simpa using this
    · rw [if_neg hpos]
      have hex' : ∃ c ∈ tl, U64LIM ≤ c.contribution * T := by
        rcases hc with rfl | hc
        · exfalso
          have hz : c.contribution = 0 := by omega
          rw [hz] at hcle
          simp [U64LIM] at hcle
        · exact ⟨c, hc, hcle⟩
      have := ih acc hex'
      obtain ⟨⟨rest', a', e⟩, hrec⟩ :
          ∃ x, calcLoop T R acc tl = x := ⟨_, rfl⟩
      rw [hrec] at this ⊢
      simpa using this

/-- C2 (counterexample): in the Distribution state `dOv` — one contributor
with contribution `2^33` summing to `total_raised = 2^33 > 0` — against a
token balance `T = 2^32 > 0`, `calculate_allocations` fails with `Overflow`
even though `floor(c * T / R) = 2^32` is representable in 64 bits: the
multiply is a plain 64-bit `checked_mul`, not a widened intermediate
product. -/
theorem c2_allocation_widened_cex :
    calculate_allocations dOv 3 4294967296 = (dOv, some .Overflow) ∧
    dOv.total_raised = sumC dOv.contributors ∧
    0 < dOv.total_raised ∧ (0 : Nat) < 4294967296 ∧
    8589934592 * 4294967296 / dOv.total_raised < U64LIM := by
  refine ⟨by decide, by decide, by decide, by decide, by decide⟩

/-- C2 (amended): a *successful* `calculate_allocations` with token balance
`T` rewrites every contributor with positive contribution to the allocation
`floor(contribution * T / total_raised)` (records with zero contribution are
untouched), and when every recorded contribution is positive the allocations
sum to at most `T`.  However the intermediate product is computed with a
64-bit checked multiply rather than a widened one: whenever the gating checks
pass and some contributor satisfies `contribution * T ≥ 2^64`, the call fails
with `Overflow`, even if the floored quotient itself is representable. -/
theorem c2_allocation_floor_and_64bit_overflow (d : DistState) (auth : Pubkey)
    (T : Nat) :
    (∀ d', calculate_allocations d auth T = (d', none) →
       List.Forall₂ (allocRel T d.total_raised) d.contributors d'.contributors ∧
       ((∀ c ∈ d.contributors, 0 < c.contribution) →
          sumAlloc d'.contributors ≤ T)) ∧
    (d.owner = auth → d.paused = false → d.token_mint ≠ 0 →
     d.total_raised ≠ 0 → d.allocation_calculated = false → T ≠ 0 →
     (∃ c ∈ d.contributors, U64LIM ≤ c.contribution * T) →
     (calculate_allocations d auth T).2 = some .Overflow) := by
  constructor
  · intro d' h
    unfold calculate_allocations at h
    split at h; · simp at h
    split at h; · simp at h
    split at h; · simp at h
    split at h; · simp at h
    split at h; · simp at h
    split at h; · simp at h
    obtain ⟨⟨cs, a, e⟩, hrec⟩ :
        ∃ x, calcLoop T d.total_raised 0 d.contributors = x := ⟨_, rfl⟩
    rw [hrec] at h
    cases e with
    | some e' => simp at h
    | none =>
      simp only at h
      split at h
      · simp at h
      · rename_i hle
        simp only [Prod.mk.injEq] at h
        obtain ⟨h1, -⟩ := h
        subst h1
        constructor
        · exact calcLoop_success_forall2 T d.total_raised d.contributors 0 cs a hrec
        · intro hpos
          have hsum := calcLoop_success_sum T d.total_raised d.contributors 0 cs a hrec hpos
          simp only
          omega
  · intro h1 h2 h3 h4 h5 h6 hex
    unfold calculate_allocations
    rw [if_neg (by simp [h1]), if_neg (by simp [h2]), if_neg h3, if_neg h4,
      if_neg (by simp [h5]), if_neg h6]
    have := calcLoop_overflow T d.total_raised d.contributors 0 hex
    obtain ⟨⟨cs, a, e⟩, hrec⟩ :
        ∃ x, calcLoop T d.total_raised 0 d.contributors = x := ⟨_, rfl⟩
    rw [hrec] at this ⊢
    simp only at this
    rw [this]

/-- Witness for C2 (amended): the success half at the concrete reachable
state `dc3` (contributions 300 and 700, `total_raised = 1000`) with token
balance 50, and the overflow half at the concrete state `dOv`. -/
theorem c2_allocation_floor_and_64bit_overflow_witness :
    (List.Forall₂ (allocRel 50 dc3.total_raised) dc3.contributors dc4.contributors ∧
      ((∀ c ∈ dc3.contributors, 0 < c.contribution) →
        sumAlloc dc4.contributors ≤ 50)) ∧
    (calculate_allocations dOv 3 4294967296).2 = some .Overflow :=
  ⟨(c2_allocation_floor_and_64bit_overflow dc3 3 50).1 dc4 (by decide),
   (c2_allocation_floor_and_64bit_overflow dOv 3 4294967296).2 (by decide)
     (by decide) (by decide) (by decide) (by decide) (by decide)
     ⟨{ user := 1, contribution := 8589934592, allocation := 0 }, by decide, by decide⟩⟩

/-! ## Per-operation shape lemmas -/

theorem create_tier_succ {p : Presale} {n : String} {m : Nat} {s' : Presale}
    (h : create_tier p n m = (s', none)) : s' = { p with tiers := s'.tiers } := by
  simp only [create_tier] at h
  repeat' split at h
  all_goals first
    | (refine absurd h ?_; simp; done)
    | (simp only [Prod.mk.injEq] at h; obtain ⟨h1, -⟩ := h; subst h1; rfl)

theorem create_tier_err {p : Presale} {n : String} {m : Nat} {s' : Presale}
    {e : PresaleError} (h : create_tier p n m = (s', some e)) : s' = p := by
  simp only [create_tier] at h
  repeat' split at h
  all_goals first
    | (refine absurd h ?_; simp; done)
    | (simp only [Prod.mk.injEq] at h; exact h.1.symm)

theorem assign_tier_succ {p : Presale} {u : Pubkey} {n : String} {s' : Presale}
    (h : assign_tier p u n = (s', none)) : s' = { p with whitelist := s'.whitelist } := by
  simp only [assign_tier] at h
  repeat' split at h
  all_goals first
    | (refine absurd h ?_; simp; done)
    | (simp only [Prod.mk.injEq] at h; obtain ⟨h1, -⟩ := h; subst h1; rfl)

theorem assign_tier_err {p : Presale} {u : Pubkey} {n : String} {s' : Presale}
    {e : PresaleError} (h : assign_tier p u n = (s', some e)) : s' = p := by
  simp only [assign_tier] at h
  repeat' split at h
  all_goals first
    | (refine absurd h ?_; simp; done)
    | (simp only [Prod.mk.injEq] at h; exact h.1.symm)

theorem bulkApply_shape (l : List (Pubkey × String)) :
    ∀ p : Presale, bulkApply p l = { p with whitelist := (bulkApply p l).whitelist } := by
  induction l with
  | nil => intro p; rfl
  | cons hd tl ih =>
    intro p
    obtain ⟨u, t⟩ := hd
    unfold bulkApply
    exact ih { p with whitelist := insertKey p.whitelist u (normalizeTier t) }

theorem bulk_assign_tiers_succ {p : Presale} {us : List Pubkey}
    {ts : List String} {s' : Presale}
    (h : bulk_assign_tiers p us ts = (s', none)) :
    s' = { p with whitelist := s'.whitelist } := by
  simp only [bulk_assign_tiers] at h
  repeat' split at h
  all_goals first
    | (refine absurd h ?_; simp; done)
    | (simp only [Prod.mk.injEq] at h; obtain ⟨h1, -⟩ := h; subst h1;
        exact bulkApply_shape _ p)

theorem bulk_assign_tiers_err {p : Presale} {us : List Pubkey}
    {ts : List String} {s' : Presale} {e : PresaleError}
    (h : bulk_assign_tiers p us ts = (s', some e)) : s' = p := by
  simp only [bulk_assign_tiers] at h
  repeat' split at h
  all_goals first
    | (refine absurd h ?_; simp; done)
    | (simp only [Prod.mk.injEq] at h; exact h.1.symm)

theorem remove_user_succ {p : Presale} {u : Pubkey} {s' : Presale}
    (h : remove_user_from_whitelist p u = (s', none)) :
    s' = { p with whitelist := s'.whitelist } := by
  simp only [remove_user_from_whitelist] at h
  repeat' split at h
  all_goals first
    | (refine absurd h ?_; simp; done)
    | (simp only [Prod.mk.injEq] at h; obtain ⟨h1, -⟩ := h; subst h1; rfl)

theorem remove_user_err {p : Presale} {u : Pubkey} {s' : Presale}
    {e : PresaleError} (h : remove_user_from_whitelist p u = (s', some e)) :
    s' = p := by
  simp only [remove_user_from_whitelist] at h
  repeat' split at h
  all_goals first
    | (refine absurd h ?_; simp; done)
    | (simp only [Prod.mk.injEq] at h; exact h.1.symm)

theorem updateTierTail_succ {p : Presale} {u : Pubkey} {nt : String} {uc : Nat}
    {s' : Presale} (h : updateTierTail p u nt uc = (s', none)) :
    s' = { p with whitelist := s'.whitelist,
                  tier_total_contributions := s'.tier_total_contributions } := by
  simp only [updateTierTail] at h
  repeat' split at h
  all_goals first
    | (refine absurd h ?_; simp; done)
    | (simp only [Prod.mk.injEq] at h; obtain ⟨h1, -⟩ := h; subst h1; rfl)

theorem update_user_tier_succ {p : Presale} {u : Pubkey} {nt : String}
    {s' : Presale} (h : update_user_tier p u nt = (s', none)) :
    s' = { p with whitelist := s'.whitelist,
                  tier_total_contributions := s'.tier_total_contributions } := by
  simp only [update_user_tier] at h
  repeat' split at h
  all_goals first
    | (refine absurd h ?_; simp; done)
    | (simp only [Prod.mk.injEq] at h; obtain ⟨h1, -⟩ := h; subst h1; rfl)
    | (have h2 := updateTierTail_succ h; exact h2)

theorem close_presale_succ {p : Presale} {r : Bool} {s' : Presale}
    (h : close_presale p r = (s', none)) :
    s' = { p with is_closed := true, is_active := false, refunds_allowed := r } ∧
      p.is_active = true := by
  simp only [close_presale] at h
  split at h; · exact absurd h (by simp)
  split at h; · exact absurd h (by simp)
  split at h; · exact absurd h (by simp)
  rename_i h1 h2 h3
  simp only [Prod.mk.injEq] at h
  obtain ⟨hs, -⟩ := h
  subst hs
  exact ⟨rfl, by simpa using h2⟩

theorem close_presale_err {p : Presale} {r : Bool} {s' : Presale}
    {e : PresaleError} (h : close_presale p r = (s', some e)) : s' = p := by
  simp only [close_presale] at h
  repeat' split at h
  all_goals first
    | (refine absurd h ?_; simp; done)
    | (simp only [Prod.mk.injEq] at h; exact h.1.symm)

theorem withdraw_funds_shape {p : Presale} {b : Nat} {tOk : Bool} {s' : Presale}
    {e : Option PresaleError} (h : withdraw_funds p b tOk = (s', e)) : s' = p := by
  simp only [withdraw_funds] at h
  repeat' split at h
  all_goals (simp only [Prod.mk.injEq] at h; exact h.1.symm)

theorem set_min_succ {p : Presale} {n : Nat} {s' : Presale}
    (h : set_min_contribution p n = (s', none)) :
    s' = { p with min_contribution := s'.min_contribution } := by
  simp only [set_min_contribution] at h
  repeat' split at h
  all_goals first
    | (refine absurd h ?_; simp; done)
    | (simp only [Prod.mk.injEq] at h; obtain ⟨h1, -⟩ := h; subst h1; rfl)

theorem set_min_err {p : Presale} {n : Nat} {s' : Presale} {e : PresaleError}
    (h : set_min_contribution p n = (s', some e)) : s' = p := by
  simp only [set_min_contribution] at h
  repeat' split at h
  all_goals first
    | (refine absurd h ?_; simp; done)
    | (simp only [Prod.mk.injEq] at h; exact h.1.symm)

theorem set_hard_cap_succ {p : Presale} {n : Nat} {s' : Presale}
    (h : set_hard_cap p n = (s', none)) :
    s' = { p with hard_cap := n } ∧ p.total_contributions ≤ n := by
  simp only [set_hard_cap] at h
  split at h; · exact absurd h (by simp)
  split at h; · exact absurd h (by simp)
  rename_i h1 h2
  simp only [Prod.mk.injEq] at h
  obtain ⟨hs, -⟩ := h
  subst hs
  exact ⟨rfl, by omega⟩

theorem set_hard_cap_err {p : Presale} {n : Nat} {s' : Presale} {e : PresaleError}
    (h : set_hard_cap p n = (s', some e)) : s' = p := by
  simp only [set_hard_cap] at h
  repeat' split at h
  all_goals first
    | (refine absurd h ?_; simp; done)
    | (simp only [Prod.mk.injEq] at h; exact h.1.symm)

theorem pause_succ {p : Presale} {s' : Presale}
    (h : pause_presale p = (s', none)) : s' = { p with paused := true } := by
  simp only [pause_presale] at h
  repeat' split at h
  all_goals first
    | (refine absurd h ?_; simp; done)
    | (simp only [Prod.mk.injEq] at h; obtain ⟨h1, -⟩ := h; subst h1; rfl)

theorem pause_err {p : Presale} {s' : Presale} {e : PresaleError}
    (h : pause_presale p = (s', some e)) : s' = p := by
  simp only [pause_presale] at h
  repeat' split at h
  all_goals first
    | (refine absurd h ?_; simp; done)
    | (simp only [Prod.mk.injEq] at h; exact h.1.symm)

theorem unpause_succ {p : Presale} {s' : Presale}
    (h : unpause_presale p = (s', none)) : s' = { p with paused := false } := by
  simp only [unpause_presale] at h
  repeat' split at h
  all_goals first
    | (refine absurd h ?_; simp; done)
    | (simp only [Prod.mk.injEq] at h; obtain ⟨h1, -⟩ := h; subst h1; rfl)

theorem unpause_err {p : Presale} {s' : Presale} {e : PresaleError}
    (h : unpause_presale p = (s', some e)) : s' = p := by
  simp only [unpause_presale] at h
  repeat' split at h
  all_goals first
    | (refine absurd h ?_; simp; done)
    | (simp only [Prod.mk.injEq] at h; exact h.1.symm)

theorem contribute_succ {p : Presale} {u : Pubkey} {a : Nat} {oOk tOk : Bool}
    {s' : Presale} (h : contribute p u a oOk tOk = (s', none)) :
    ∃ tname tmax,
      lookupKey p.whitelist u = some tname ∧
      lookupKey p.tiers tname = some tmax ∧
      p.paused = false ∧ p.is_active = true ∧ p.is_closed = false ∧
      p.total_contributions + a ≤ p.hard_cap ∧
      p.total_contributions + a < U64LIM ∧
      p.min_contribution ≤ (lookupKey p.contributions u).getD 0 + a ∧
      (lookupKey p.contributions u).getD 0 + a ≤ tmax ∧
      s' = { p with
             contributors :=
               if (lookupKey p.contributions u).getD 0 = 0 then p.contributors ++ [u]
               else p.contributors,
             contributions :=
               insertKey p.contributions u ((lookupKey p.contributions u).getD 0 + a),
             total_contributions := p.total_contributions + a } := by
  simp only [contribute] at h
  split at h; · exact absurd h (by simp)
  rename_i hp
  split at h; · exact absurd h (by simp)
  rename_i hact
  split at h; · exact absurd h (by simp)
  rename_i hcl
  split at h
  · exact absurd h (by simp)
  rename_i tname hwl
  split at h
  · exact absurd h (by simp)
  rename_i tmax ht
  split at h
  · exact absurd h (by simp)
  rename_i ptot hadd1
  split at h; · exact absurd h (by simp)
  rename_i hcap
  split at h
  · exact absurd h (by simp)
  rename_i ucontrib hadd2
  split at h; · exact absurd h (by simp)
  rename_i hmin
  split at h; · exact absurd h (by simp)
  rename_i hmax
  split at h; · exact absurd h (by simp)
  rename_i hoOk
  split at h
  case isFalse => exact absurd h (by simp)
  obtain ⟨e1, l1⟩ := checkedAdd_some hadd1
  obtain ⟨e2, l2⟩ := checkedAdd_some hadd2
  subst e1
  subst e2
  simp only [Prod.mk.injEq] at h
  obtain ⟨h1, -⟩ := h
  subst h1
  refine ⟨tname, tmax, hwl, ht, by simpa using hp, by simpa using hact,
    by simpa using hcl, by omega, l1, by omega, by omega, rfl⟩

theorem contribute_err {p : Presale} {u : Pubkey} {a : Nat} {oOk : Bool}
    {s' : Presale} {e : PresaleError}
    (h : contribute p u a oOk true = (s', some e)) : s' = p := by
  simp only [contribute] at h
  repeat' split at h
  all_goals first
    | (refine absurd h ?_; simp; done)
    | (simp only [Prod.mk.injEq] at h; exact h.1.symm)
    | simp_all

theorem refund_succ {p : Presale} {u : Pubkey} {tOk : Bool} {s' : Presale}
    (h : refund p u tOk = (s', none)) :
    p.paused = false ∧ p.is_closed = true ∧ p.refunds_allowed = true ∧
    0 < (lookupKey p.contributions u).getD 0 ∧
    s' = { p with contributions := insertKey p.contributions u 0,
                  refunded := insertKey p.refunded u true } := by
  simp only [refund] at h
  split at h; · exact absurd h (by simp)
  rename_i hp
  split at h; · exact absurd h (by simp)
  rename_i hc
  split at h; · exact absurd h (by simp)
  rename_i hr
  split at h; · exact absurd h (by simp)
  rename_i hz
  split at h; · exact absurd h (by simp)
  rename_i hrf
  split at h
  case isFalse => exact absurd h (by simp)
  simp only [Prod.mk.injEq] at h
  obtain ⟨h1, -⟩ := h
  subst h1
  exact ⟨by simpa using hp, by simpa using hc, by simpa using hr,
    by omega, rfl⟩

theorem refund_err {p : Presale} {u : Pubkey} {s' : Presale} {e : PresaleError}
    (h : refund p u true = (s', some e)) : s' = p := by
  simp only [refund] at h
  repeat' split at h
  all_goals first
    | (refine absurd h ?_; simp; done)
    | (simp only [Prod.mk.injEq] at h; exact h.1.symm)
    | simp_all

theorem initTiersLoop_shape (l : List (String × Nat)) :
    ∀ (q s' : Presale) (e : Option PresaleError), initTiersLoop q l = (s', e) →
      s' = { q with tiers := s'.tiers } := by
  induction l with
  | nil =>
    intro q s' e h
    simp only [initTiersLoop, Prod.mk.injEq] at h
    obtain ⟨h1, -⟩ := h
    subst h1
    rfl
  | cons hd tl ih =>
    intro q s' e h
    obtain ⟨n, m⟩ := hd
    simp only [initTiersLoop] at h
    split at h
    · simp only [Prod.mk.injEq] at h
      obtain ⟨h1, -⟩ := h
      subst h1
      rfl
    split at h
    · simp only [Prod.mk.injEq] at h
      obtain ⟨h1, -⟩ := h
      subst h1
      rfl
    split at h
    · simp only [Prod.mk.injEq] at h
      obtain ⟨h1, -⟩ := h
      subst h1
      rfl
    have h2 := ih _ s' e h
    exact h2

theorem init_presale_succ {p : Presale} {owner mint : Pubkey}
    {names : List String} {maxes : List Nat} {minc hc : Nat} {s' : Presale}
    (h : init_presale p owner mint names maxes minc hc = (s', none)) :
    p.is_initialized = false ∧
    s' = { p with owner := owner, usdt_mint := mint, min_contribution := minc,
                  hard_cap := hc, total_contributions := 0, is_active := true,
                  is_closed := false, refunds_allowed := false, paused := false,
                  is_initialized := true, tiers := s'.tiers } := by
  simp only [init_presale] at h
  split at h; · exact absurd h (by simp)
  rename_i hinit
  split at h; · exact absurd h (by simp)
  split at h; · exact absurd h (by simp)
  split at h; · exact absurd h (by simp)
  split at h; · exact absurd h (by simp)
  split at h; · exact absurd h (by simp)
  refine ⟨by simpa using hinit, ?_⟩
  have h2 := initTiersLoop_shape _ _ _ _ h
  exact h2

theorem init_distribution_err {d : DistState} {o : Pubkey} {m : Nat}
    {s' : DistState} {e : DistError}
    (h : init_distribution d o m = (s', some e)) : s' = d := by
  simp only [init_distribution] at h
  repeat' split at h
  all_goals first
    | (refine absurd h ?_; simp; done)
    | (simp only [Prod.mk.injEq] at h; exact h.1.symm)

theorem set_token_err {d : DistState} {auth mint : Pubkey}
    {s' : DistState} {e : DistError}
    (h : set_token d auth mint = (s', some e)) : s' = d := by
  simp only [set_token] at h
  repeat' split at h
  all_goals first
    | (refine absurd h ?_; simp; done)
    | (simp only [Prod.mk.injEq] at h; exact h.1.symm)

theorem claim_err {d : DistState} {auth : Pubkey} {s' : DistState}
    {e : DistError} (h : claim d auth true = (s', some e)) : s' = d := by
  simp only [claim] at h
  repeat' split at h
  all_goals first
    | (refine absurd h ?_; simp; done)
    | (simp only [Prod.mk.injEq] at h; exact h.1.symm)
    | simp_all

/-- C7 (counterexample): on the reachable Distribution state `dc2`,
`batch_set_contributions` with users `[1, 2]` and amounts `[5, 0]` fails on
the second element (`InvalidAmount`), yet the returned state is not the
starting state: the first element's record and its `total_raised` increment
survive the error. -/
theorem c7_no_partial_mutation_cex :
    DReach dc2 ∧
    (batch_set_contributions dc2 3 [1, 2] [5, 0]).2 = some .InvalidAmount ∧
    (batch_set_contributions dc2 3 [1, 2] [5, 0]).1 ≠ dc2 ∧
    (batch_set_contributions dc2 3 [1, 2] [5, 0]).1.contributors =
      [{ user := 1, contribution := 5, allocation := 0 }] ∧
    (batch_set_contributions dc2 3 [1, 2] [5, 0]).1.total_raised = 5 :=
  ⟨dreach_dc2, by decide, by decide, by decide, by decide⟩

/-- C7 (amended): errors raised by an operation's up-front validation leave
the ledger state exactly unchanged — this holds for every Presale operation
other than `initialize`, `update_user_tier` and a failing transfer inside
`contribute`/`refund`, and for every Distribution operation other than
`batch_set_contributions`, `calculate_allocations` and a failing transfer
inside `claim`.  It does not hold universally: `batch_set_contributions`
validates per element inside its mutation loop, so a failure on element `k`
retains elements `0..k-1` in the returned state, and a failed transfer inside
`contribute` retains its bookkeeping updates. -/
theorem c7_error_atomicity :
    (∀ (s : Presale) (op : PresaleOp) (s' : Presale) (e : PresaleError),
       pcleanOp op = true → stepPresale s op = (s', some e) → s' = s) ∧
    (∀ (d : DistState) (op : DistOp) (d' : DistState) (e : DistError),
       dcleanOp op = true → stepDist d op = (d', some e) → d' = d) ∧
    (∀ (p : Presale) (u : Pubkey) (a : Nat) (tname : String) (tmax : Nat),
       p.paused = false → p.is_active = true → p.is_closed = false →
       lookupKey p.whitelist u = some tname →
       lookupKey p.tiers tname = some tmax →
       p.total_contributions + a < U64LIM →
       p.total_contributions + a ≤ p.hard_cap →
       (lookupKey p.contributions u).getD 0 + a < U64LIM →
       p.min_contribution ≤ (lookupKey p.contributions u).getD 0 + a →
       (lookupKey p.contributions u).getD 0 + a ≤ tmax →
       0 < a →
       contribute p u a true false =
         ({ p with
            contributors :=
              if (lookupKey p.contributions u).getD 0 = 0 then p.contributors ++ [u]
              else p.contributors,
            contributions :=
              insertKey p.contributions u ((lookupKey p.contributions u).getD 0 + a),
            total_contributions := p.total_contributions + a },
           some .TransferFailed) ∧
       ({ p with
          contributors :=
            if (lookupKey p.contributions u).getD 0 = 0 then p.contributors ++ [u]
            else p.contributors,
          contributions :=
            insertKey p.contributions u ((lookupKey p.contributions u).getD 0 + a),
          total_contributions := p.total_contributions + a } : Presale) ≠ p) ∧
    (∀ (d : DistState) (auth u₁ u₂ : Pubkey) (a₁ : Nat),
       d.owner = auth → d.paused = false → d.allocation_calculated = false →
       2 ≤ d.max_batch_size → u₂ ≠ u₁ → a₁ ≠ 0 →
       findContributor d.contributors u₁ = none →
       batch_set_contributions d auth [u₁, u₂] [a₁, 0] =
         ({ d with contributors :=
                     d.contributors ++ [{ user := u₁, contribution := a₁, allocation := 0 }],
                   total_raised := add64 d.total_raised a₁ },
           some .InvalidAmount)) := by
  refine ⟨?_, ?_, ?_, ?_⟩
  · intro s op s' e hclean hstep
    cases op with
    | opInit o mint ns ms mc hc => simp [pcleanOp] at hclean
    | opUpdateUserTier u nt => simp [pcleanOp] at hclean
    | opCreateTier n m => exact create_tier_err hstep
    | opAssignTier u n => exact assign_tier_err hstep
    | opBulkAssignTiers us ts => exact bulk_assign_tiers_err hstep
    | opRemoveUser u => exact remove_user_err hstep
    | opContribute u a oOk tOk =>
      simp only [pcleanOp] at hclean
      subst hclean
      exact contribute_err hstep
    | opClosePresale r => exact close_presale_err hstep
    | opWithdrawFunds b tOk => exact withdraw_funds_shape hstep
    | opRefund u tOk =>
      simp only [pcleanOp] at hclean
      subst hclean
      exact refund_err hstep
    | opSetMinContribution n => exact set_min_err hstep
    | opSetHardCap n => exact set_hard_cap_err hstep
    | opPausePresale => exact pause_err hstep
    | opUnpausePresale => exact unpause_err hstep
  · intro d op d' e hclean hstep
    cases op with
    | opInitDist o m => exact init_distribution_err hstep
    | opSetToken auth mint => exact set_token_err hstep
    | opBatchSet auth us as => simp [dcleanOp] at hclean
    | opCalc auth T => simp [dcleanOp] at hclean
    | opClaim auth tOk =>
      simp only [dcleanOp] at hclean
      subst hclean
      exact claim_err hstep
  · intro p u a tname tmax hp hact hcl hwl ht hlim1 hcap hlim2 hmin hmax ha
    constructor
    · have e1 : checkedAdd p.total_contributions a =
          some (p.total_contributions + a) := by
        unfold checkedAdd; rw [if_pos hlim1]
      have e2 : checkedAdd ((lookupKey p.contributions u).getD 0) a =
          some ((lookupKey p.contributions u).getD 0 + a) := by
        unfold checkedAdd; rw [if_pos hlim2]
      simp only [contribute, hp, hact, hcl, hwl, ht, e1, e2]
      rw [if_neg (show ¬ p.hard_cap < p.total_contributions + a by omega),
        if_neg (show ¬ (lookupKey p.contributions u).getD 0 + a < p.min_contribution
          by omega),
        if_neg (show ¬ tmax < (lookupKey p.contributions u).getD 0 + a by omega)]
      simp
    · intro heq
      have := congrArg Presale.total_contributions heq
      simp only at this
      omega
  · intro d auth u₁ u₂ a₁ hown hp hac hmb hne ha hfind
    unfold batch_set_contributions
    rw [if_neg (by simp [hown]), if_neg (by simp [hp]), if_neg (by simp [hac]),
      if_neg (by simp), if_neg (by simp; omega)]
    rw [show [u₁, u₂].zip [a₁, 0] = [(u₁, a₁), (u₂, (0 : Nat))] from rfl]
    unfold bscLoop
    rw [if_neg (by simp), if_neg ha]
    simp only [hfind]
    unfold bscLoop
    rw [if_neg (by simp [hne])]
    simp

/-- Witness for C7 (amended) at concrete inputs: a failed `create_tier`
(duplicate tier) on `pc1`, a failed `set_token` (wrong owner) on `dc2`, a
failed transfer inside `contribute` on `pc2`, and a partial
`batch_set_contributions` on `dc2`. -/
theorem c7_error_atomicity_witness :
    ((stepPresale pc1 (.opCreateTier "gold" 5)).1 = pc1) ∧
    ((stepDist dc2 (.opSetToken 9 7)).1 = dc2) ∧
    (contribute pc2 1 500 true false =
      ({ pc2 with
         contributors :=
           if (lookupKey pc2.contributions 1).getD 0 = 0 then pc2.contributors ++ [1]
           else pc2.contributors,
         contributions :=
           insertKey pc2.contributions 1 ((lookupKey pc2.contributions 1).getD 0 + 500),
         total_contributions := pc2.total_contributions + 500 },
        some .TransferFailed)) ∧
    (batch_set_contributions dc2 3 [4, 5] [7, 0] =
      ({ dc2 with contributors :=
                    dc2.contributors ++ [{ user := 4, contribution := 7, allocation := 0 }],
                  total_raised := add64 dc2.total_raised 7 },
        some .InvalidAmount)) :=
  ⟨c7_error_atomicity.1 pc1 (.opCreateTier "gold" 5)
      (stepPresale pc1 (.opCreateTier "gold" 5)).1 .TierAlreadyExists
      (by decide) (by decide),
   c7_error_atomicity.2.1 dc2 (.opSetToken 9 7)
      (stepDist dc2 (.opSetToken 9 7)).1 .NotOwner (by decide) (by decide),
   (c7_error_atomicity.2.2.1 pc2 1 500 "gold" 1000 (by decide) (by decide)
      (by decide) (by decide) (by decide) (by decide) (by decide) (by decide)
      (by decide) (by decide) (by decide)).1,
   c7_error_atomicity.2.2.2 dc2 3 4 5 7 (by decide) (by decide) (by decide)
      (by decide) (by decide) (by decide) (by decide)⟩

/-! ## Reachability invariants -/

theorem preach_ind (P : Presale → Prop) (h0 : P presaleDefault)
    (hind : ∀ (s : Presale) (op : PresaleOp) (s' : Presale),
      P s → stepPresale s op = (s', none) → P s') :
    ∀ s, PReach s → P s := by
  intro s h
  induction h with
  | start => exact h0
  | step op hr hstep ih => exact hind _ op _ ih hstep

theorem dreach_ind (P : DistState → Prop) (h0 : P distDefault)
    (hind : ∀ (d : DistState) (op : DistOp) (d' : DistState),
      P d → stepDist d op = (d', none) → P d') :
    ∀ d, DReach d → P d := by
  intro d h
  induction h with
  | start => exact h0
  | step op hr hstep ih => exact hind _ op _ ih hstep

theorem insertKey_ne_nil {κ ν : Type} [DecidableEq κ] (m : List (κ × ν))
    (k : κ) (v : ν) : insertKey m k v ≠ [] := by
  cases m with
  | nil => simp [insertKey]
  | cons hd tl =>
    obtain ⟨k', v'⟩ := hd
    unfold insertKey
    split <;> simp

theorem sum_eq_step {s : Presale} {op : PresaleOp} {s' : Presale}
    (hpris : s.is_initialized = false → s.contributions = [])
    (href : isRefundOp op = false)
    (hstep : stepPresale s op = (s', none))
    (hsum : s.total_contributions = sumMap s.contributions) :
    s'.total_contributions = sumMap s'.contributions := by
  cases op with
  | opInit o mint ns ms mc hcp =>
    obtain ⟨hinit, hshape⟩ := init_presale_succ hstep
    have ht : s'.total_contributions = 0 := by rw [hshape]
    have hcn : s'.contributions = s.contributions := by rw [hshape]
    rw [ht, hcn, hpris hinit]
    rfl
  | opCreateTier n m =>
    have hshape := create_tier_succ hstep
    have ht : s'.total_contributions = s.total_contributions := by rw [hshape]
    have hcn : s'.contributions = s.contributions := by rw [hshape]
    rw [ht, hcn]; exact hsum
  | opAssignTier u n =>
    have hshape := assign_tier_succ hstep
    have ht : s'.total_contributions = s.total_contributions := by rw [hshape]
    have hcn : s'.contributions = s.contributions := by rw [hshape]
    rw [ht, hcn]; exact hsum
  | opBulkAssignTiers us ts =>
    have hshape := bulk_assign_tiers_succ hstep
    have ht : s'.total_contributions = s.total_contributions := by rw [hshape]
    have hcn : s'.contributions = s.contributions := by rw [hshape]
    rw [ht, hcn]; exact hsum
  | opRemoveUser u =>
    have hshape := remove_user_succ hstep
    have ht : s'.total_contributions = s.total_contributions := by rw [hshape]
    have hcn : s'.contributions = s.contributions := by rw [hshape]
    rw [ht, hcn]; exact hsum
  | opUpdateUserTier u nt =>
    have hshape := update_user_tier_succ hstep
    have ht : s'.total_contributions = s.total_contributions := by rw [hshape]
    have hcn : s'.contributions = s.contributions := by rw [hshape]
    rw [ht, hcn]; exact hsum
  | opContribute u a oOk tOk =>
    obtain ⟨tname, tmax, hwl, htier, hp, hact, hcl, hcap, hlim, hmin, hmax, hshape⟩ :=
      contribute_succ hstep
    have ht : s'.total_contributions = s.total_contributions + a := by rw [hshape]
    have hcn : s'.contributions =
        insertKey s.contributions u ((lookupKey s.contributions u).getD 0 + a) := by
      rw [hshape]
    have hkey := sumMap_insertKey s.contributions u
      ((lookupKey s.contributions u).getD 0 + a)
    rw [ht, hcn]
    omega
  | opClosePresale r =>
    obtain ⟨hshape, -⟩ := close_presale_succ hstep
    have ht : s'.total_contributions = s.total_contributions := by rw [hshape]
    have hcn : s'.contributions = s.contributions := by rw [hshape]
    rw [ht, hcn]; exact hsum
  | opWithdrawFunds b tOk =>
    have hshape := withdraw_funds_shape hstep
    subst hshape; exact hsum
  | opRefund u tOk => simp [isRefundOp] at href
  | opSetMinContribution n =>
    have hshape := set_min_succ hstep
    have ht : s'.total_contributions = s.total_contributions := by rw [hshape]
    have hcn : s'.contributions = s.contributions := by rw [hshape]
    rw [ht, hcn]; exact hsum
  | opSetHardCap n =>
    obtain ⟨hshape, -⟩ := set_hard_cap_succ hstep
    have ht : s'.total_contributions = s.total_contributions := by rw [hshape]
    have hcn : s'.contributions = s.contributions := by rw [hshape]
    rw [ht, hcn]; exact hsum
  | opPausePresale =>
    have hshape := pause_succ hstep
    have ht : s'.total_contributions = s.total_contributions := by rw [hshape]
    have hcn : s'.contributions = s.contributions := by rw [hshape]
    rw [ht, hcn]; exact hsum
  | opUnpausePresale =>
    have hshape := unpause_succ hstep
    have ht : s'.total_contributions = s.total_contributions := by rw [hshape]
    have hcn : s'.contributions = s.contributions := by rw [hshape]
    rw [ht, hcn]; exact hsum

theorem pinv_frame {s s' : Presale}
    (e1 : s'.is_initialized = s.is_initialized)
    (e2 : s'.contributions = s.contributions)
    (e3 : s'.total_contributions = s.total_contributions)
    (e4 : s'.refunded = s.refunded)
    (e5 : s'.is_active = s.is_active)
    (hinv : PInv s) : PInv s' := by
  obtain ⟨h1, h2⟩ := hinv
  constructor
  · intro hni
    rw [e1] at hni
    have hpr := h1 hni
    exact ⟨by rw [e2]; exact hpr.1, by rw [e3]; exact hpr.2.1,
           by rw [e4]; exact hpr.2.2.1, by rw [e5]; exact hpr.2.2.2⟩
  · intro hr
    rw [e4] at hr
    rw [e3, e2]
    exact h2 hr

theorem pinv_step {s : Presale} (op : PresaleOp) {s' : Presale}
    (hstep : stepPresale s op = (s', none)) (hinv : PInv s) : PInv s' := by
  obtain ⟨h1, h2⟩ := hinv
  cases op with
  | opInit o mint ns ms mc hcp =>
    obtain ⟨hinit, hshape⟩ := init_presale_succ hstep
    constructor
    · intro hni
      have e1 : s'.is_initialized = true := by rw [hshape]
      rw [e1] at hni
      exact absurd hni (by simp)
    · intro _
      have ht : s'.total_contributions = 0 := by rw [hshape]
      have hcn : s'.contributions = s.contributions := by rw [hshape]
      rw [ht, hcn, h1 hinit |>.1]
      rfl
  | opCreateTier n m =>
    have hshape := create_tier_succ hstep
    exact pinv_frame (by rw [hshape]) (by rw [hshape]) (by rw [hshape])
      (by rw [hshape]) (by rw [hshape]) ⟨h1, h2⟩
  | opAssignTier u n =>
    have hshape := assign_tier_succ hstep
    exact pinv_frame (by rw [hshape]) (by rw [hshape]) (by rw [hshape])
      (by rw [hshape]) (by rw [hshape]) ⟨h1, h2⟩
  | opBulkAssignTiers us ts =>
    have hshape := bulk_assign_tiers_succ hstep
    exact pinv_frame (by rw [hshape]) (by rw [hshape]) (by rw [hshape])
      (by rw [hshape]) (by rw [hshape]) ⟨h1, h2⟩
  | opRemoveUser u =>
    have hshape := remove_user_succ hstep
    exact pinv_frame (by rw [hshape]) (by rw [hshape]) (by rw [hshape])
      (by rw [hshape]) (by rw [hshape]) ⟨h1, h2⟩
  | opUpdateUserTier u nt =>
    have hshape := update_user_tier_succ hstep
    exact pinv_frame (by rw [hshape]) (by rw [hshape]) (by rw [hshape])
      (by rw [hshape]) (by rw [hshape]) ⟨h1, h2⟩
  | opContribute u a oOk tOk =>
    obtain ⟨tname, tmax, hwl, htier, hp, hact, hcl, hcap, hlim, hmin, hmax, hshape⟩ :=
      contribute_succ hstep
    constructor
    · intro hni
      have e1 : s'.is_initialized = s.is_initialized := by rw [hshape]
      rw [e1] at hni
      have hfalse := (h1 hni).2.2.2
      rw [hfalse] at hact
      exact absurd hact (by simp)
    · intro hr
      have e4 : s'.refunded = s.refunded := by rw [hshape]
      rw [e4] at hr
      have hs := h2 hr
      have ht : s'.total_contributions = s.total_contributions + a := by rw [hshape]
      have hcn : s'.contributions =
          insertKey s.contributions u ((lookupKey s.contributions u).getD 0 + a) := by
        rw [hshape]
      have hkey := sumMap_insertKey s.contributions u
        ((lookupKey s.contributions u).getD 0 + a)
      rw [ht, hcn]
      omega
  | opClosePresale r =>
    obtain ⟨hshape, hact⟩ := close_presale_succ hstep
    constructor
    · intro hni
      have e1 : s'.is_initialized = s.is_initialized := by rw [hshape]
      rw [e1] at hni
      have hfalse := (h1 hni).2.2.2
      rw [hfalse] at hact
      exact absurd hact (by simp)
    · intro hr
      have e4 : s'.refunded = s.refunded := by rw [hshape]
      rw [e4] at hr
      have e2 : s'.contributions = s.contributions := by rw [hshape]
      have e3 : s'.total_contributions = s.total_contributions := by rw [hshape]
      rw [e3, e2]
      exact h2 hr
  | opWithdrawFunds b tOk =>
    have hshape := withdraw_funds_shape hstep
    subst hshape
    exact ⟨h1, h2⟩
  | opRefund u tOk =>
    obtain ⟨hp, hc, hra, hpos, hshape⟩ := refund_succ hstep
    constructor
    · intro hni
      have e1 : s'.is_initialized = s.is_initialized := by rw [hshape]
      rw [e1] at hni
      have hcontr := (h1 hni).1
      rw [hcontr] at hpos
      simp [lookupKey] at hpos
    · intro hrn
      have e4 : s'.refunded = insertKey s.refunded u true := by rw [hshape]
      rw [e4] at hrn
      exact absurd hrn (insertKey_ne_nil _ _ _)
  | opSetMinContribution n =>
    have hshape := set_min_succ hstep
    exact pinv_frame (by rw [hshape]) (by rw [hshape]) (by rw [hshape])
      (by rw [hshape]) (by rw [hshape]) ⟨h1, h2⟩
  | opSetHardCap n =>
    obtain ⟨hshape, -⟩ := set_hard_cap_succ hstep
    exact pinv_frame (by rw [hshape]) (by rw [hshape]) (by rw [hshape])
      (by rw [hshape]) (by rw [hshape]) ⟨h1, h2⟩
  | opPausePresale =>
    have hshape := pause_succ hstep
    exact pinv_frame (by rw [hshape]) (by rw [hshape]) (by rw [hshape])
      (by rw [hshape]) (by rw [hshape]) ⟨h1, h2⟩
  | opUnpausePresale =>
    have hshape := unpause_succ hstep
    exact pinv_frame (by rw [hshape]) (by rw [hshape]) (by rw [hshape])
      (by rw [hshape]) (by rw [hshape]) ⟨h1, h2⟩

theorem pinv_reach : ∀ s, PReach s → PInv s :=
  preach_ind PInv (by constructor <;> intro h <;> simp [presaleDefault, sumMap])
    (fun _ op _ hinv hstep => pinv_step op hstep hinv)

theorem set_token_succ {d : DistState} {auth mint : Pubkey} {d' : DistState}
    (h : set_token d auth mint = (d', none)) :
    d' = { d with token_mint := mint } := by
  simp only [set_token] at h
  repeat' split at h
  all_goals first
    | (refine absurd h ?_; simp; done)
    | (simp only [Prod.mk.injEq] at h; obtain ⟨h1, -⟩ := h; subst h1; rfl)

theorem claim_succ {d : DistState} {auth : Pubkey} {tOk : Bool} {d' : DistState}
    (h : claim d auth tOk = (d', none)) :
    d' = { d with contributors := zeroAllocation d.contributors auth } := by
  simp only [claim] at h
  repeat' split at h
  all_goals first
    | (refine absurd h ?_; simp; done)
    | (simp only [Prod.mk.injEq] at h; obtain ⟨h1, -⟩ := h; subst h1; rfl)

theorem calculate_allocations_succ {d : DistState} {auth : Pubkey} {T : Nat}
    {d' : DistState} (h : calculate_allocations d auth T = (d', none)) :
    ∃ cs a, calcLoop T d.total_raised 0 d.contributors = (cs, a, none) ∧
      d' = { d with contributors := cs, allocation_calculated := true } := by
  unfold calculate_allocations at h
  split at h; · exact absurd h (by simp)
  split at h; · exact absurd h (by simp)
  split at h; · exact absurd h (by simp)
  split at h; · exact absurd h (by simp)
  split at h; · exact absurd h (by simp)
  split at h; · exact absurd h (by simp)
  obtain ⟨⟨cs, a, e⟩, hrec⟩ :
      ∃ x, calcLoop T d.total_raised 0 d.contributors = x := ⟨_, rfl⟩
  rw [hrec] at h
  cases e with
  | some e' => simp at h
  | none =>
    simp only at h
    split at h
    · simp at h
    · simp only [Prod.mk.injEq] at h
      obtain ⟨h1, -⟩ := h
      subst h1
      exact ⟨cs, a, hrec, rfl⟩

theorem sumC_of_forall2 {T R : Nat} {l l' : List Contributor}
    (h : List.Forall₂ (allocRel T R) l l') : sumC l' = sumC l := by
  induction h with
  | nil => rfl
  | cons hrel _ ih => simp only [sumC, hrel.2.1, ih]

theorem sumC_zeroAllocation (l : List Contributor) (u : Pubkey) :
    sumC (zeroAllocation l u) = sumC l := by
  induction l with
  | nil => rfl
  | cons hd tl ih =>
    unfold zeroAllocation
    split <;> simp [sumC, ih]

/-- `total_raised` tracks the (wrapped) sum of recorded contributions. -/
def DInv (d : DistState) : Prop :=
  d.total_raised = sumC d.contributors % U64LIM

theorem bscLoop_dinv (pairs : List (Pubkey × Nat)) :
    ∀ (cs : List Contributor) (t : Nat) (seen : List Pubkey)
      (cs' : List Contributor) (t' : Nat) (e : Option DistError),
      t = sumC cs % U64LIM → bscLoop cs t seen pairs = (cs', t', e) →
      t' = sumC cs' % U64LIM := by
  induction pairs with
  | nil =>
    intro cs t seen cs' t' e ht h
    simp only [bscLoop, Prod.mk.injEq] at h
    obtain ⟨h1, h2, -⟩ := h
    subst h1; subst h2
    exact ht
  | cons hd tl ih =>
    obtain ⟨u, a⟩ := hd
    intro cs t seen cs' t' e ht h
    simp only [bscLoop] at h
    split at h
    · simp only [Prod.mk.injEq] at h
      obtain ⟨h1, h2, -⟩ := h
      subst h1; subst h2
      exact ht
    split at h
    · simp only [Prod.mk.injEq] at h
      obtain ⟨h1, h2, -⟩ := h
      subst h1; subst h2
      exact ht
    split at h
    next c hfind =>
      refine ih _ _ _ _ _ _ ?_ h
      have hupd := sumC_updateContribution cs u a c hfind
      simp only [add64, sub64, U64LIM] at ht ⊢
      omega
    next hfind =>
      refine ih _ _ _ _ _ _ ?_ h
      rw [sumC_append]
      simp only [sumC]
      simp only [add64, U64LIM] at ht ⊢
      omega

theorem dinv_step {d : DistState} (op : DistOp) {d' : DistState}
    (hstep : stepDist d op = (d', none)) (hinv : DInv d) : DInv d' := by
  cases op with
  | opInitDist o m =>
    simp only [stepDist, init_distribution] at hstep
    split at hstep
    · exact absurd hstep (by simp)
    simp only [Prod.mk.injEq] at hstep
    obtain ⟨h1, -⟩ := hstep
    subst h1
    simp [DInv, sumC]
  | opSetToken auth mint =>
    have hshape := set_token_succ hstep
    have e1 : d'.total_raised = d.total_raised := by rw [hshape]
    have e2 : d'.contributors = d.contributors := by rw [hshape]
    unfold DInv
    rw [e1, e2]
    exact hinv
  | opBatchSet auth us as =>
    simp only [stepDist] at hstep
    unfold batch_set_contributions at hstep
    split at hstep; · exact absurd hstep (by simp)
    split at hstep; · exact absurd hstep (by simp)
    split at hstep; · exact absurd hstep (by simp)
    split at hstep; · exact absurd hstep (by simp)
    split at hstep; · exact absurd hstep (by simp)
    obtain ⟨⟨cs, t, e⟩, hrec⟩ :
        ∃ x, bscLoop d.contributors d.total_raised [] (us.zip as) = x := ⟨_, rfl⟩
    rw [hrec] at hstep
    simp only [Prod.mk.injEq] at hstep
    obtain ⟨h1, -⟩ := hstep
    subst h1
    have := bscLoop_dinv (us.zip as) d.contributors d.total_raised [] cs t e hinv hrec
    simpa [DInv] using this
  | opCalc auth T =>
    obtain ⟨cs, a, hrec, hshape⟩ := calculate_allocations_succ hstep
    have hf2 := calcLoop_success_forall2 T d.total_raised d.contributors 0 cs a hrec
    have e1 : d'.total_raised = d.total_raised := by rw [hshape]
    have e2 : d'.contributors = cs := by rw [hshape]
    unfold DInv
    rw [e1, e2, sumC_of_forall2 hf2]
    exact hinv
  | opClaim auth tOk =>
    have hshape := claim_succ hstep
    have e1 : d'.total_raised = d.total_raised := by rw [hshape]
    have e2 : d'.contributors = zeroAllocation d.contributors auth := by rw [hshape]
    unfold DInv
    rw [e1, e2, sumC_zeroAllocation]
    exact hinv

theorem dinv_reach : ∀ d, DReach d → DInv d :=
  dreach_ind DInv (by simp [DInv, distDefault, sumC])
    (fun _ op _ hinv hstep => dinv_step op hstep hinv)

/-- C1 (counterexample): `pc5` is reachable (user 1 contributed 500, the
presale closed with refunds, and the refund succeeded), yet
`total_contributions` is still 500 while the recorded per-participant
contributions sum to 0 — `refund` zeroes the contribution without adjusting
`total_contributions`, so the sum invariant fails on a reachable state. -/
theorem c1_sum_invariant_cex :
    PReach pc5 ∧ pc5.total_contributions = 500 ∧ sumMap pc5.contributions = 0 ∧
      pc5.total_contributions ≠ sumMap pc5.contributions :=
  ⟨preach_pc5, by decide, by decide, by decide⟩

/-- C1 (amended): the Presale equality `total_contributions = Σ recorded
contributions` holds in every reachable state in which no refund has been
recorded, and is preserved by every successfully committed operation other
than `refund`; a successful `refund` leaves `total_contributions` unchanged
while the recorded sum strictly drops, so the equality fails from then on.
On the Distribution side, `total_raised` equals the sum of
`contributor.contribution` modulo `2^64` (the unchecked `u64` arithmetic of
`batch_set_contributions` wraps) in every reachable state. -/
theorem c1_sum_invariant :
    (∀ s : Presale, PReach s → s.refunded = [] →
       s.total_contributions = sumMap s.contributions) ∧
    (∀ (s : Presale) (op : PresaleOp) (s' : Presale), PReach s →
       isRefundOp op = false → stepPresale s op = (s', none) →
       s.total_contributions = sumMap s.contributions →
       s'.total_contributions = sumMap s'.contributions) ∧
    (∀ (s : Presale) (u : Pubkey) (tOk : Bool) (s' : Presale),
       stepPresale s (.opRefund u tOk) = (s', none) →
       s.total_contributions = sumMap s.contributions →
       s'.total_contributions = s.total_contributions ∧
       s'.total_contributions ≠ sumMap s'.contributions) ∧
    (∀ d : DistState, DReach d → d.total_raised = sumC d.contributors % U64LIM) := by
  refine ⟨?_, ?_, ?_, dinv_reach⟩
  · intro s hreach hr
    exact (pinv_reach s hreach).2 hr
  · intro s op s' hreach href hstep hsum
    exact sum_eq_step (fun hni => ((pinv_reach s hreach).1 hni).1) href hstep hsum
  · intro s u tOk s' hstep hsum
    obtain ⟨hp, hc, hra, hpos, hshape⟩ := refund_succ hstep
    have ht : s'.total_contributions = s.total_contributions := by rw [hshape]
    have hcn : s'.contributions = insertKey s.contributions u 0 := by rw [hshape]
    have hkey := sumMap_insertKey s.contributions u 0
    have hle := lookupKey_getD_le_sumMap s.contributions u
    refine ⟨ht, ?_⟩
    rw [ht, hcn]
    omega

/-- Witness for C1 (amended) at concrete inputs: the reachable states `pc3`
(sum equality before any refund), the committed contribution `pc2 → pc3`
(non-refund preservation), the refund step `pc4 → pc5` (equality broken), and
the reachable Distribution state `dc3`. -/
theorem c1_sum_invariant_witness :
    pc3.total_contributions = sumMap pc3.contributions ∧
    (pc5.total_contributions = pc4.total_contributions ∧
      pc5.total_contributions ≠ sumMap pc5.contributions) ∧
    dc3.total_raised = sumC dc3.contributors % U64LIM :=
  ⟨c1_sum_invariant.2.1 pc2 (.opContribute 1 500 true true) pc3 preach_pc2
      (by decide) (by decide)
      (c1_sum_invariant.1 pc2 preach_pc2 (by decide)),
   c1_sum_invariant.2.2.1 pc4 1 true pc5 (by decide) (by decide),
   c1_sum_invariant.2.2.2 dc3 dreach_dc3⟩

theorem pcap_step {s : Presale} (op : PresaleOp) {s' : Presale}
    (hstep : stepPresale s op = (s', none))
    (hinv : s.total_contributions ≤ s.hard_cap) :
    s'.total_contributions ≤ s'.hard_cap := by
  cases op with
  | opInit o mint ns ms mc hcp =>
    obtain ⟨-, hshape⟩ := init_presale_succ hstep
    have ht : s'.total_contributions = 0 := by rw [hshape]
    omega
  | opCreateTier n m =>
    have hshape := create_tier_succ hstep
    have ht : s'.total_contributions = s.total_contributions := by rw [hshape]
    have hc : s'.hard_cap = s.hard_cap := by rw [hshape]
    omega
  | opAssignTier u n =>
    have hshape := assign_tier_succ hstep
    have ht : s'.total_contributions = s.total_contributions := by rw [hshape]
    have hc : s'.hard_cap = s.hard_cap := by rw [hshape]
    omega
  | opBulkAssignTiers us ts =>
    have hshape := bulk_assign_tiers_succ hstep
    have ht : s'.total_contributions = s.total_contributions := by rw [hshape]
    have hc : s'.hard_cap = s.hard_cap := by rw [hshape]
    omega
  | opRemoveUser u =>
    have hshape := remove_user_succ hstep
    have ht : s'.total_contributions = s.total_contributions := by rw [hshape]
    have hc : s'.hard_cap = s.hard_cap := by rw [hshape]
    omega
  | opUpdateUserTier u nt =>
    have hshape := update_user_tier_succ hstep
    have ht : s'.total_contributions = s.total_contributions := by rw [hshape]
    have hc : s'.hard_cap = s.hard_cap := by rw [hshape]
    omega
  | opContribute u a oOk tOk =>
    obtain ⟨tname, tmax, hwl, htier, hp, hact, hcl, hcap, hlim, hmin, hmax, hshape⟩ :=
      contribute_succ hstep
    have ht : s'.total_contributions = s.total_contributions + a := by rw [hshape]
    have hc : s'.hard_cap = s.hard_cap := by rw [hshape]
    omega
  | opClosePresale r =>
    obtain ⟨hshape, -⟩ := close_presale_succ hstep
    have ht : s'.total_contributions = s.total_contributions := by rw [hshape]
    have hc : s'.hard_cap = s.hard_cap := by rw [hshape]
    omega
  | opWithdrawFunds b tOk =>
    have hshape := withdraw_funds_shape hstep
    subst hshape
    exact hinv
  | opRefund u tOk =>
    obtain ⟨-, -, -, -, hshape⟩ := refund_succ hstep
    have ht : s'.total_contributions = s.total_contributions := by rw [hshape]
    have hc : s'.hard_cap = s.hard_cap := by rw [hshape]
    omega
  | opSetMinContribution n =>
    have hshape := set_min_succ hstep
    have ht : s'.total_contributions = s.total_contributions := by rw [hshape]
    have hc : s'.hard_cap = s.hard_cap := by rw [hshape]
    omega
  | opSetHardCap n =>
    obtain ⟨hshape, hle⟩ := set_hard_cap_succ hstep
    have ht : s'.total_contributions = s.total_contributions := by rw [hshape]
    have hc : s'.hard_cap = n := by rw [hshape]
    omega
  | opPausePresale =>
    have hshape := pause_succ hstep
    have ht : s'.total_contributions = s.total_contributions := by rw [hshape]
    have hc : s'.hard_cap = s.hard_cap := by rw [hshape]
    omega
  | opUnpausePresale =>
    have hshape := unpause_succ hstep
    have ht : s'.total_contributions = s.total_contributions := by rw [hshape]
    have hc : s'.hard_cap = s.hard_cap := by rw [hshape]
    omega

theorem pcap_reach : ∀ s, PReach s → s.total_contributions ≤ s.hard_cap :=
  preach_ind (fun s => s.total_contributions ≤ s.hard_cap) (by simp [presaleDefault])
    (fun _ op _ hinv hstep => pcap_step op hstep hinv)

/-- C3 (counterexample): `pb5` is reachable — user 1 contributed 500 under
tier gold (cap 1000), was removed from the whitelist, and was re-assigned via
`assign_tier` to tier silver (cap 100) — and in `pb5` the whitelisted user 1
holds a recorded contribution of 500, exceeding their assigned tier's cap of
100: `assign_tier` does not validate the existing contribution, so
remove-then-reassign breaks the tier-cap bound. -/
theorem c3_cap_invariant_cex :
    PReach pb5 ∧ lookupKey pb5.whitelist 1 = some "silver" ∧
    lookupKey pb5.tiers "silver" = some 100 ∧
    lookupKey pb5.contributions 1 = some 500 ∧
    ¬ (lookupKey pb5.contributions 1).getD 0 ≤ 100 :=
  ⟨preach_pb5, by decide, by decide, by decide, by decide⟩

/-- C3 (amended): `total_contributions ≤ hard_cap` holds in every reachable
Presale state (every operation, including `set_hard_cap`, preserves it), and
a successful `contribute` leaves the contributing user's recorded total
within their assigned tier's cap.  The per-participant tier bound is *not* an
invariant of all operations: `assign_tier` performs no contribution check, so
`remove_user_from_whitelist` followed by `assign_tier` to a smaller-cap tier
reaches a state (`pb5`) whose whitelisted participant exceeds their tier's
cap. -/
theorem c3_cap_invariant :
    (∀ s : Presale, PReach s → s.total_contributions ≤ s.hard_cap) ∧
    (∀ (s : Presale) (u : Pubkey) (a : Nat) (oOk tOk : Bool) (s' : Presale),
       stepPresale s (.opContribute u a oOk tOk) = (s', none) →
       ∃ tname tmax, lookupKey s'.whitelist u = some tname ∧
         lookupKey s'.tiers tname = some tmax ∧
         (lookupKey s'.contributions u).getD 0 ≤ tmax) ∧
    (PReach pb5 ∧ lookupKey pb5.whitelist 1 = some "silver" ∧
      lookupKey pb5.tiers "silver" = some 100 ∧
      ¬ (lookupKey pb5.contributions 1).getD 0 ≤ 100) := by
  refine ⟨pcap_reach, ?_, preach_pb5, by decide, by decide, by decide⟩
  intro s u a oOk tOk s' hstep
  obtain ⟨tname, tmax, hwl, htier, hp, hact, hcl, hcap, hlim, hmin, hmax, hshape⟩ :=
    contribute_succ hstep
  refine ⟨tname, tmax, ?_, ?_, ?_⟩
  · have e : s'.whitelist = s.whitelist := by rw [hshape]
    rw [e]; exact hwl
  · have e : s'.tiers = s.tiers := by rw [hshape]
    rw [e]; exact htier
  · have e : s'.contributions =
        insertKey s.contributions u ((lookupKey s.contributions u).getD 0 + a) := by
      rw [hshape]
    rw [e, lookupKey_insertKey_self]
    simpa using hmax

/-- Witness for C3 (amended) at concrete inputs: the reachable state `pc3`
(total 500 ≤ hard cap 1100) and the committed contribution `pc2 → pc3`
(user 1's 500 within gold's cap 1000). -/
theorem c3_cap_invariant_witness :
    pc3.total_contributions ≤ pc3.hard_cap ∧
    (∃ tname tmax, lookupKey pc3.whitelist 1 = some tname ∧
      lookupKey pc3.tiers tname = some tmax ∧
      (lookupKey pc3.contributions 1).getD 0 ≤ tmax) :=
  ⟨c3_cap_invariant.1 pc3 preach_pc3,
   c3_cap_invariant.2.1 pc2 1 500 true true pc3 (by decide)⟩

end Sale
